import Mathlib

/-!
Verification of the artcat (UartCAT) repository: a shallow embedding of the
frame codec, the busy mutex, the master command construction, the master-side
mapping builder, and the slave command processor, together with theorems
settling the specification claims.

Bytes and machine integers are modelled as `Nat` with explicit reductions
`% 256`, `% 2^16`, `% 2^32` wherever the Rust code performs wrapping
arithmetic (release-build semantics of overflow).  Slice operations that can
panic in Rust are modelled with `Option`, `none` standing for a panic.
-/

namespace Artcat

/-! ## Frame codec (src/command.rs) -/

/-- `MAX_COMMAND` from src/command.rs line 7. -/
def MAX_COMMAND : Nat := 4096

/-- `checksum` from src/command.rs: running transform starting at the
constant `0b010110111` (= 183 as a `u8`), each step `(a.wrapping_add(b)) << 1`
on `u8`. -/
def checksum (slice : List Nat) : Nat :=
  slice.foldl (fun a b => (a + b) * 2 % 256) 0b010110111

/-- `Access` bitfield from src/command.rs (bilge `bitsize(8)`; field order is
from least significant bit: read, write, fixed, topological, 3 reserved bits,
error). -/
structure Access where
  read : Bool
  write : Bool
  fixed : Bool
  topological : Bool
  error : Bool
  deriving DecidableEq

/-- bilge packing of `Access` into one byte (reserved bits are zero). -/
def Access.toByte (a : Access) : Nat :=
  (if a.read then 1 else 0) + (if a.write then 2 else 0) +
  (if a.fixed then 4 else 0) + (if a.topological then 8 else 0) +
  (if a.error then 128 else 0)

instance : Inhabited Access := ⟨⟨false, false, false, false, false⟩⟩

/-- `Address` bitfield from src/command.rs (bilge `bitsize(32)`; `slave` is
the low 16 bits, `register` the high 16 bits). -/
structure Address where
  slave : Nat
  register : Nat
  deriving DecidableEq

/-- the `u32` value of a bilge `Address` (used by `u32::from(header.address)`
in src/slave.rs). -/
def Address.toU32 (a : Address) : Nat :=
  a.slave % 2 ^ 16 + a.register % 2 ^ 16 * 2 ^ 16

instance : Inhabited Address := ⟨⟨0, 0⟩⟩

/-- `Command` from src/command.rs: token u16, access u8, executed u8,
address u32, size u16, checksum u8. -/
structure Command where
  token : Nat
  access : Access
  executed : Nat
  address : Address
  size : Nat
  checksum : Nat
  deriving DecidableEq

instance : Inhabited Command := ⟨⟨0, default, 0, default, 0, 0⟩⟩

/-- big-endian bytes of a `u16`. -/
def u16be (x : Nat) : List Nat := [x / 256 % 256, x % 256]

/-- big-endian bytes of a `u32`. -/
def u32be (x : Nat) : List Nat :=
  [x / 2 ^ 24 % 256, x / 2 ^ 16 % 256, x / 2 ^ 8 % 256, x % 256]

/-- `Command::to_be_bytes` (packbytes derive on src/command.rs `Command`):
each field serialized big-endian, in declaration order. -/
def Command.to_be_bytes (c : Command) : List Nat :=
  u16be c.token ++ [c.access.toByte] ++ [c.executed % 256] ++
  u32be c.address.toU32 ++ u16be c.size ++ [c.checksum % 256]

/-- one transmitted frame, as written by `SlaveControl::receive_command`
(src/slave.rs lines 140-143) and `Topic::send` (src/master/networking.rs
lines 202-205): the header bytes, the running checksum of those bytes, then
the data scratch. -/
def transmitBytes (header : Command) (data : List Nat) : List Nat :=
  header.to_be_bytes ++ [checksum header.to_be_bytes] ++ data

/-! ## Busy mutex (src/mutex.rs) -/

/-- `BusyMutexGuard::try_new` (src/mutex.rs lines 46-51) acting on the
`locked` flag: `swap(true, Acquire)` stores `true` and yields the former
value; the code returns a guard (`some`) when that former value was `true`.
The result is the pair (guard?, flag after the call). -/
def BusyMutex.try_new (locked : Bool) : Option Unit × Bool :=
  if locked then (some (), true) else (none, true)

/-- `BusyMutexGuard::drop` (src/mutex.rs lines 64-68): store `false`. -/
def BusyMutex.dropGuard (_locked : Bool) : Bool := false

/-- outcome of one `run` invocation's initial `try_lock` as used by
`Master::run` (src/master/networking.rs line 83) and `Slave::run`
(src/slave.rs lines 76-77): `true` when the coroutine proceeds to read the
bus, `false` when it aborts (panic of the `expect`, resp. early return). -/
def runAcquires (locked : Bool) : Bool :=
  match BusyMutex.try_new locked with
  | (some _, _) => true
  | (none, _) => false

/-! ## Master command construction (src/master/mod.rs, networking.rs) -/

/-- master-side error type (src/master/mod.rs `Error`), restricted to the
constructors this development needs. -/
inductive MError where
  | master (msg : String)
  | slaveErr (code : Nat)
  | timeout
  deriving DecidableEq

/-- `usize_to_message` from src/master/mod.rs lines 56-59. -/
def usize_to_message (size : Nat) : Except MError Nat :=
  if size < MAX_COMMAND then Except.ok size
  else Except.error (MError.master "data is longer than maximum allowed message")

/-- `Address` enum of src/master/networking.rs (topic addressing). -/
inductive MAddress where
  | topological (slave localAddr : Nat)
  | fixedAddr (slave localAddr : Nat)
  | virt (global : Nat)

/-- command built by `Topic::new` (src/master/networking.rs lines 150-190):
the token is chosen from the pending table (modelled as a parameter), the
size comes from `usize_to_message`, and the address/access fields follow the
`match` on the address form.  The `?` on `usize_to_message` makes the whole
construction fail before anything is inserted or sent. -/
def Topic.new (token : Nat) (address : MAddress) (bufferLen : Nat) :
    Except MError Command := do
  let size ← usize_to_message bufferLen
  let c : Command := { token := token, access := default, executed := 0,
                       address := default, size := size, checksum := 0 }
  match address with
  | MAddress.topological slave localAddr =>
      pure { c with access := { c.access with topological := true },
                    address := ⟨slave, localAddr⟩ }
  | MAddress.fixedAddr slave localAddr =>
      pure { c with access := { c.access with fixed := true },
                    address := ⟨slave, localAddr⟩ }
  | MAddress.virt global =>
      pure { c with address := ⟨global % 2 ^ 16, global / 2 ^ 16 % 2 ^ 16⟩ }

/-- `Topic::send` (src/master/networking.rs lines 192-207): set the data
checksum and the read/write flags, then put header, header checksum and data
on the wire.  Returns the updated command and the bytes written. -/
def Topic.send (c : Command) (read write : Bool) (data : List Nat) :
    Command × List Nat :=
  let c := { c with checksum := checksum data,
                    access := { c.access with read := read, write := write } }
  (c, transmitBytes c data)

/-- the send half of `Master::command` / `Slave::command`
(src/master/accessing.rs): `Topic::new` then `Topic::send`.  Returns the
outcome and every byte written to the bus; on error nothing is written. -/
def masterCommand (token : Nat) (address : MAddress) (read write : Bool)
    (data : List Nat) : Except MError Command × List Nat :=
  match Topic.new token address data.length with
  | Except.error e => (Except.error e, [])
  | Except.ok c =>
      let (c, bytes) := Topic.send c read write data
      (Except.ok c, bytes)

/-! ## Slave buffer accessors (src/slave.rs `SlaveBuffer`) -/

/-- byte-level model of `SlaveBuffer::get` (src/slave.rs lines 90-94) for a
register of `size` bytes at `addr`: `&self.buffer[addr ..][.. size]` panics
(`none`) unless `addr + size ≤ MEM`. -/
def SlaveBuffer.get (buffer : List Nat) (addr size : Nat) : Option (List Nat) :=
  if addr + size ≤ buffer.length then some ((buffer.drop addr).take size)
  else none

/-- byte-level model of `SlaveBuffer::set` (src/slave.rs lines 96-99): write
the `value` bytes at `addr`; panics (`none`) unless `addr + value.length ≤ MEM`. -/
def SlaveBuffer.set (buffer : List Nat) (addr : Nat) (value : List Nat) :
    Option (List Nat) :=
  if addr + value.length ≤ buffer.length then
    some (buffer.take addr ++ value ++ buffer.drop (addr + value.length))
  else none

/-! ## Master-side mapping builder (src/master/mapping.rs) -/

/-- `registers::Mapping` (src/registers.rs lines 94-99): one table entry. -/
structure MappingEntry where
  virtual_start : Nat
  slave_start : Nat
  size : Nat
  deriving DecidableEq

instance : Inhabited MappingEntry := ⟨⟨0, 0, 0⟩⟩

/-- `Host` (src/master/accessing.rs lines 115-119). -/
inductive Host where
  | topological (n : Nat)
  | fixedHost (n : Nat)
  deriving DecidableEq

/-- builder `Mapping` of src/master/mapping.rs: a per-host entry list (the
`HashMap<Host, Vec>` accessed pointwise) and the virtual cursor `end`. -/
structure MappingBuilder where
  map : Host → List MappingEntry
  endCursor : Nat

/-- `Mapping::new`. -/
def MappingBuilder.new : MappingBuilder := ⟨fun _ => [], 0⟩

/-- `VirtualRegister<T>` as produced by `build`: virtual address plus the
byte size of `T`. -/
structure VirtualReg where
  address : Nat
  size : Nat
  deriving DecidableEq

/-- `BufferMapping<T>` (src/master/mapping.rs lines 56-62): reserved range
`[start, start+tsize)` with running cursor `endCur`; `tsize` models
`size_of::<T>()`. -/
structure BufferMapping where
  start : Nat
  endCur : Nat
  tsize : Nat

/-- `Mapping::buffer::<T>` (src/master/mapping.rs lines 26-36): reserve
`tsize` bytes at the cursor.  `usize_to_message` bounds the size and
`checked_add` guards `u32` cursor overflow. -/
def MappingBuilder.buffer (m : MappingBuilder) (tsize : Nat) :
    Except MError (MappingBuilder × BufferMapping) := do
  let start := m.endCursor
  let size ← usize_to_message tsize
  if m.endCursor + size ≤ 2 ^ 32 - 1 then
    Except.ok ({ m with endCursor := m.endCursor + size },
               ⟨start, start, tsize⟩)
  else Except.error (MError.master "no more virtual memory available")

/-- `BufferMapping::register` (src/master/mapping.rs lines 68-80): append an
entry for `host` at the running cursor; the `assert!` that the running size
stays within `T` is a panic, modelled as `none`.  `u32` additions wrap. -/
def BufferMapping.register (st : MappingBuilder × BufferMapping) (host : Host)
    (regAddr regSize : Nat) : Option (MappingBuilder × BufferMapping) :=
  let (m, b) := st
  let start := b.endCur
  let endCur := (b.endCur + regSize) % 2 ^ 32
  if endCur ≤ (b.start + b.tsize) % 2 ^ 32 then
    some ({ m with map := fun h =>
              if h = host then m.map h ++ [⟨start, regAddr, regSize⟩] else m.map h },
          { b with endCur := endCur })
  else none

/-- `BufferMapping::build` (src/master/mapping.rs lines 81-84): the
`assert_eq!` is a panic, modelled as `none`. -/
def BufferMapping.build (b : BufferMapping) : Option VirtualReg :=
  if b.endCur = (b.start + b.tsize) % 2 ^ 32 then some ⟨b.start, b.tsize⟩
  else none

/-! ## Slave engine (src/slave.rs) -/

/-- `CommandError` (src/registers.rs lines 123-141). -/
inductive CommandError where
  | invalidCommand
  | invalidAccess
  | invalidSize
  | invalidRegister
  | invalidMapping
  | unknown
  deriving DecidableEq

/-- the byte value of a `CommandError` (bilge discriminants). -/
def CommandError.code : CommandError → Nat
  | .invalidCommand => 1
  | .invalidAccess => 2
  | .invalidSize => 3
  | .invalidRegister => 4
  | .invalidMapping => 5
  | .unknown => 255

/-- byte read inside the slave buffer.  Total (`0` out of range): every use
below is at an offset below `USER = 0x500` and `Slave::new` asserts
`MEM ≥ 0x500`, so the out-of-range case is unreachable. -/
def byteAt (l : List Nat) (i : Nat) : Nat := l.getD i 0

/-- big-endian `u16` read inside the slave buffer. -/
def getU16 (l : List Nat) (i : Nat) : Nat := byteAt l i * 256 + byteAt l (i + 1)

/-- `SlaveBuffer::set_error` (src/slave.rs lines 101-105): write the code at
offset 2 (`ERROR`) only when the current value is `CommandError::None` (0). -/
def set_error (buffer : List Nat) (code : Nat) : List Nat :=
  if byteAt buffer 2 = 0 then buffer.set 2 code else buffer

/-- `SlaveBuffer::add_loss` (src/slave.rs lines 106-109): saturating
increment of the big-endian `u16` at offset 3 (`LOSS`). -/
def add_loss (buffer : List Nat) : List Nat :=
  let count := min (getU16 buffer 3 + 1) 65535
  (buffer.set 3 (count / 256 % 256)).set 4 (count % 256)

/-- decode one `registers::Mapping` at byte offset `p` of the buffer
(packbytes: u32, u16, u16, all big-endian). -/
def decodeEntry (buffer : List Nat) (p : Nat) : MappingEntry :=
  ⟨byteAt buffer p * 2 ^ 24 + byteAt buffer (p + 1) * 2 ^ 16 +
     byteAt buffer (p + 2) * 2 ^ 8 + byteAt buffer (p + 3),
   byteAt buffer (p + 4) * 256 + byteAt buffer (p + 5),
   byteAt buffer (p + 6) * 256 + byteAt buffer (p + 7)⟩

/-- the mutable fields of `Slave` + `SlaveControl` that command processing
touches: the shared byte buffer, the sorted mapping table, the configured
fixed address, and the persistent send scratch (`MAX_COMMAND` bytes). -/
structure SlaveState where
  buffer : List Nat
  mapping : List MappingEntry
  address : Nat
  send : List Nat
  deriving DecidableEq

/-- `dst[start ..][.. src.length].copy_from_slice(src)`: `none` models the
Rust panic when the range exceeds `dst`. -/
def copyAt (dst : List Nat) (start : Nat) (src : List Nat) : Option (List Nat) :=
  if start + src.length ≤ dst.length then
    some (dst.take start ++ src ++ dst.drop (start + src.length))
  else none

/-- `dst[d1..d2].copy_from_slice(&src[s1..s2])`: `none` models the panics on
an invalid range or a length mismatch. -/
def copyRange (dst : List Nat) (d1 d2 : Nat) (src : List Nat) (s1 s2 : Nat) :
    Option (List Nat) :=
  if d1 ≤ d2 ∧ d2 ≤ dst.length ∧ s1 ≤ s2 ∧ s2 ≤ src.length ∧ d2 - d1 = s2 - s1 then
    some (dst.take d1 ++ (src.drop s1).take (s2 - s1) ++ dst.drop d2)
  else none

/-- the per-entry validation of `on_write` (src/slave.rs lines 292-294):
`slave_start + size` is a `u16` addition (wrapping in release builds),
`u32::MAX - virtual_start < size` detects `u32` overflow of the virtual end. -/
def entryInvalid (e : MappingEntry) (memLen : Nat) : Bool :=
  decide ((e.slave_start + e.size) % 2 ^ 16 > memLen) ||
  decide (e.slave_start > memLen) ||
  decide (2 ^ 32 - 1 - e.virtual_start < e.size)

/-- `SlaveControl::on_write` (src/slave.rs lines 279-300).  Writing `ADDRESS`
(0x0) refreshes the cached fixed address; writing `MAPPING` (0xff) re-parses
the table: the first `table.size` entries (8 bytes each, after the size byte)
are filtered of zero sizes, sorted by `virtual_start`, installed, and each
entry failing the range checks sets ERROR = `InvalidMapping` (sticky).  When
`table.size > 128` the slice `table.map[.. size]` panics (`none`). -/
def on_write (st : SlaveState) (address : Nat) : Option SlaveState :=
  if address = 0x0 then
    some { st with address := getU16 st.buffer 0 }
  else if address = 0xff then
    let tableSize := byteAt st.buffer 0xff
    if tableSize ≤ 128 then
      let entries := (List.range tableSize).map
        (fun i => decodeEntry st.buffer (0x100 + 8 * i))
      let m := (entries.filter (fun e => e.size ≠ 0)).insertionSort
        (fun a b => a.virtual_start ≤ b.virtual_start)
      let buffer := m.foldl
        (fun b e => if entryInvalid e b.length then set_error b 5 else b)
        st.buffer
      some { st with mapping := m, buffer := buffer }
    else none
  else some st

/-- `SlaveControl::exchange_slave` (src/slave.rs lines 206-236).  `sh` is the
staged `send_header`, `header` the received one; result is the new state, the
new send header and the `Result` error.  The buffer is always locked here.
Callers ensure `data.length = header.size` (the receive scratch slice). -/
def exchange_slave (st : SlaveState) (sh : Command) (header : Command)
    (data : List Nat) : Option (SlaveState × Command × Option CommandError) := do
  let size := header.size
  let register := header.address.register
  if register + size > st.buffer.length then
    some (st, sh, some CommandError.invalidRegister)
  else do
    let (st1, sh1) ←
      if header.access.read then do
        let send1 ← copyAt st.send 0 ((st.buffer.drop register).take size)
        some ({ st with send := send1 },
              { sh with checksum := checksum (send1.take size) })
      else do
        let send1 ← copyAt st.send 0 data
        some ({ st with send := send1 }, sh)
    if header.access.write then do
      let buf1 ← copyAt st1.buffer register data
      let st2 ← on_write { st1 with buffer := buf1 } register
      some (st2, sh1, (none : Option CommandError))
    else
      some (st1, sh1, (none : Option CommandError))

/-- `bisect_slice`'s binary-search loop (src/slave.rs lines 312-324). -/
def bisectLoop (l : List MappingEntry) (p : MappingEntry → Bool)
    (start stop : Nat) : Nat :=
  if start < stop then
    let mid := (start + stop) / 2
    if p (l.getD mid default) then bisectLoop l p start mid
    else bisectLoop l p (mid + 1) stop
  else stop
termination_by stop - start
decreasing_by
  · omega
  · omega

/-- `bisect_slice` from src/slave.rs. -/
def bisect_slice (l : List MappingEntry) (p : MappingEntry → Bool) : Nat :=
  bisectLoop l p 0 l.length

/-- `map_frame_slave` (src/slave.rs lines 330-357): the matching ranges
(frame, slave) of one mapping entry for one frame; `u32` additions wrap. -/
def map_frame_slave (mapped : MappingEntry) (frame : Command) :
    Option ((Nat × Nat) × (Nat × Nat)) :=
  let address := frame.address.toU32
  let vStart := mapped.virtual_start
  let vEnd := (mapped.virtual_start + mapped.size) % 2 ^ 32
  let iStart := max vStart address
  let iEnd := min vEnd ((address + frame.size) % 2 ^ 32)
  if iEnd ≤ iStart then none
  else some ((iStart - address, iEnd - address),
    (iStart - vStart + mapped.slave_start, iEnd - vStart + mapped.slave_start))

/-- the two bisections of `exchange_virtual` (src/slave.rs lines 240-244):
lower bound over the whole table, upper bound over the tail `mapping[start..]`
(the code then slices `mapping[start .. stop]` with this relative `stop`). -/
def virtWindow (mapping : List MappingEntry) (header : Command) : Nat × Nat :=
  let start := bisect_slice mapping
    (fun item => decide ((item.virtual_start + item.size) % 2 ^ 32 > header.address.toU32))
  let stop := bisect_slice (mapping.drop start)
    (fun item => decide (item.virtual_start > (header.address.toU32 + header.size) % 2 ^ 32))
  (start, stop)

/-- result of `exchange_virtual`; `locked` records whether the buffer mutex
was taken (the `stop > start` branch). -/
structure VirtOut where
  state : SlaveState
  sendHeader : Command
  locked : Bool

/-- `SlaveControl::exchange_virtual` (src/slave.rs lines 238-271). -/
def exchange_virtual (st : SlaveState) (sh : Command) (header : Command)
    (data : List Nat) : Option VirtOut := do
  let size := header.size
  let (start, stop) := virtWindow st.mapping header
  let send1 ← copyAt st.send 0 data
  if stop > start then do
    let window := (st.mapping.drop start).take (stop - start)
    let (send2, sh1) ←
      if header.access.read then do
        let s ← window.foldlM (fun s e =>
          match map_frame_slave e header with
          | some ((d1, d2), (s1, s2)) => copyRange s d1 d2 st.buffer s1 s2
          | none => some s) send1
        some (s, { sh with checksum := checksum (s.take size) })
      else some (send1, sh)
    let buf1 ←
      if header.access.write then
        window.foldlM (fun b e =>
          match map_frame_slave e header with
          | some ((s1, s2), (d1, d2)) => copyRange b d1 d2 data s1 s2
          | none => some b) st.buffer
      else some st.buffer
    some ⟨{ st with buffer := buf1, send := send2 }, sh1, true⟩
  else
    some ⟨{ st with send := send1 }, sh, false⟩

/-- result of `process_command`: new state, staged send header, the `Result`
error, and two instrumentation flags — whether the buffer mutex was taken
during processing and whether this slave executed the command (ran the
`executed += 1` lines). -/
structure ProcOut where
  state : SlaveState
  sendHeader : Command
  err : Option CommandError
  locked : Bool
  executedFlag : Bool
  deriving DecidableEq

/-- `SlaveControl::process_command` (src/slave.rs lines 159-204).  The staged
`send_header` starts as the received header (set by `receive_command`). -/
def process_command (st : SlaveState) (recv : Command) (data : List Nat) :
    Option ProcOut := do
  let sh0 := recv
  if recv.access.fixed && recv.access.topological then
    some ⟨st, sh0, some CommandError.invalidCommand, false, false⟩
  else
    let sh1 := if recv.access.topological then
        { sh0 with address := { sh0.address with
            slave := (recv.address.slave % 2 ^ 16 + 2 ^ 16 - 1) % 2 ^ 16 } }
      else sh0
    if (recv.access.fixed && decide (recv.address.slave = st.address)) ||
       (recv.access.topological && decide (recv.address.slave = 0)) then
      if recv.access.write && decide (recv.checksum ≠ checksum data) then
        some ⟨{ st with buffer := add_loss st.buffer }, sh1, none, true, false⟩
      else do
        let sh2 := { sh1 with executed := (sh1.executed + 1) % 256 }
        let (st1, sh3, err) ← exchange_slave st sh2 recv data
        some ⟨st1, sh3, err, true, true⟩
    else if !recv.access.fixed && !recv.access.topological then
      if recv.access.write && decide (recv.checksum ≠ checksum data) then
        some ⟨{ st with buffer := add_loss st.buffer }, sh1, none, true, false⟩
      else do
        let sh2 := { sh1 with executed := (sh1.executed + 1) % 256 }
        let v ← exchange_virtual st sh2 recv data
        some ⟨v.state, v.sendHeader, none, v.locked, true⟩
    else do
      let send1 ← copyAt st.send 0 data
      some ⟨{ st with send := send1 }, sh1, none, false, false⟩

/-- result of `receive_command`: new state and the forwarded frame
a downstream slave sees (`none` when nothing is transmitted). -/
structure StepOut where
  state : SlaveState
  forward : Option (Command × List Nat)
  locked : Bool
  executedFlag : Bool
  deriving DecidableEq

/-- `SlaveControl::receive_command` (src/slave.rs lines 125-145) after the
header was caught: an oversized header is dropped with nothing read or
transmitted; otherwise `process_command` runs, an error sets the sticky ERROR
register and the error flag, and the frame `send_header ++ checksum ++
send[.. size]` goes out.  `data` is the received payload (`receive[.. size]`,
so `data.length = recv.size`). -/
def receive_command (st : SlaveState) (recv : Command) (data : List Nat) :
    Option StepOut :=
  if recv.size > MAX_COMMAND then
    some ⟨st, none, false, false⟩
  else
    match process_command st recv data with
    | none => none
    | some p =>
      match p.err with
      | some e =>
          let st1 := { p.state with buffer := set_error p.state.buffer e.code }
          let sh := { p.sendHeader with
                      access := { p.sendHeader.access with error := true } }
          some ⟨st1, some (sh, st1.send.take recv.size), p.locked, p.executedFlag⟩
      | none =>
          some ⟨p.state, some (p.sendHeader, p.state.send.take recv.size),
                p.locked, p.executedFlag⟩

/-- a frame walking a chain of slaves: each slave processes and forwards;
`none` when some slave drops the frame or panics.  Returns every slave's
`StepOut` plus the final frame looping back to the master. -/
def chain : List SlaveState → Command → List Nat →
    Option (List StepOut × Command × List Nat)
  | [], h, d => some ([], h, d)
  | st :: rest, h, d => do
    let o ← receive_command st h d
    match o.forward with
    | none => none
    | some (h1, d1) => do
      let (outs, hf, df) ← chain rest h1 d1
      some (o :: outs, hf, df)

/-- Modelled from the spec: "the number of slaves whose mapping intersects
the requested virtual interval [address, address+size)" — an entry
intersects when `[virtual_start, virtual_start+size)` meets the interval. -/
def specMappingIntersects (mapping : List MappingEntry) (header : Command) : Bool :=
  mapping.any fun e =>
    decide (max e.virtual_start header.address.toU32 <
      min (e.virtual_start + e.size) (header.address.toU32 + header.size))

/-- Modelled from the spec: the number of slaves in the chain whose mapping
intersects the requested virtual interval. -/
def specIntersectCount (sts : List SlaveState) (header : Command) : Nat :=
  (sts.filter (fun st => specMappingIntersects st.mapping header)).length

/-- the shape invariants of a live slave state: the send scratch is the
`[u8; MAX_COMMAND]` array and the buffer holds at least the standard
registers (`Slave::new` asserts `MEM ≥ 0x500`). -/
def slaveInv (st : SlaveState) : Prop :=
  st.send.length = MAX_COMMAND ∧ 0x500 ≤ st.buffer.length

/-- a well-formed topological frame: topological flag alone, payload of
exactly `size` bytes, `size` within `MAX_COMMAND`, rank in `u16` range. -/
def topoWF (h : Command) (d : List Nat) : Prop :=
  h.access.topological = true ∧ h.access.fixed = false ∧
  h.size ≤ MAX_COMMAND ∧ d.length = h.size ∧ h.address.slave < 2 ^ 16

/-- the conditions under which the addressed slave executes without refusal
or panic: the register window fits its buffer, a write carries a matching
data checksum, and a write landing on MAPPING installs a table size within
the 128-entry capacity (beyond it the Rust slice panics). -/
def matchWF (st : SlaveState) (h : Command) (d : List Nat) : Prop :=
  h.address.register + h.size ≤ st.buffer.length ∧
  (h.access.write = true → h.checksum = checksum d ∧
    (h.address.register = 0xff → d.headD (byteAt st.buffer 0xff) ≤ 128))

/-- a well-formed virtual frame: neither fixed nor topological, payload of
exactly `size` bytes within `MAX_COMMAND`, matching checksum on writes, and
a request interval that does not wrap the 32-bit address space. -/
def virtWF (h : Command) (d : List Nat) : Prop :=
  h.access.topological = false ∧ h.access.fixed = false ∧
  h.size ≤ MAX_COMMAND ∧ d.length = h.size ∧
  (h.access.write = true → h.checksum = checksum d) ∧
  h.address.toU32 + h.size < 2 ^ 32

/-- a mapping entry a correctly configured slave holds: its slave range fits
the buffer and its virtual range does not overflow `u32`. -/
def entryOk (e : MappingEntry) (memLen : Nat) : Prop :=
  e.slave_start + e.size ≤ memLen ∧ e.virtual_start + e.size < 2 ^ 32

/-! ## Concrete instances used by witnesses and counterexamples -/

/-- `true` on the `Ok` constructor. -/
def exceptIsOk : Except MError Command → Bool
  | Except.ok _ => true
  | Except.error _ => false

/-- the all-zero default command header. -/
def cmdZero : Command := ⟨0, ⟨false, false, false, false, false⟩, 0, ⟨0, 0⟩, 0, 0⟩

/-- a freshly initialised slave with `MEM = 0x500` (all registers zero, no
mapping, fixed address 0, zeroed send scratch of `MAX_COMMAND` bytes). -/
def st0 : SlaveState := ⟨List.replicate 1280 0, [], 0, List.replicate 4096 0⟩

/-- topological read of the 1-byte VERSION register (0x5), rank 0. -/
def hTopoRead : Command := ⟨7, ⟨true, false, false, true, false⟩, 0, ⟨0, 0x5⟩, 1, 0⟩

/-- the frame `hTopoRead` as forwarded by the matching slave `st0` at rank 0:
rank wrapped to 65535, `executed` 1, data checksum of the read chunk `[0]`. -/
def hTopoFwd1 : Command :=
  ⟨7, ⟨true, false, false, true, false⟩, 1, ⟨65535, 0x5⟩, 1, checksum [0]⟩

/-- the same frame after 65535 further non-matching slaves: the u16 rank has
wrapped all the way back to 0. -/
def hTopoFwd2 : Command :=
  ⟨7, ⟨true, false, false, true, false⟩, 1, ⟨0, 0x5⟩, 1, checksum [0]⟩

/-- the frame forwarded by the second matching slave (position 65536):
executed 2, rank wrapped to 65535 again. -/
def hTopoFwd3 : Command :=
  ⟨7, ⟨true, false, false, true, false⟩, 2, ⟨65535, 0x5⟩, 1, checksum [0]⟩

/-- a header whose size field exceeds `MAX_COMMAND`. -/
def hBig : Command := ⟨7, ⟨true, false, false, true, false⟩, 0, ⟨0, 0⟩, 4097, 0⟩

/-- a slave whose send scratch still holds bytes `9, 9` from an earlier
command. -/
def stStale : SlaveState :=
  ⟨List.replicate 1280 0, [], 0, 9 :: 9 :: List.replicate 4094 0⟩

/-- topological write of 2 bytes at register 0x500, rank 0, with a data
checksum field (0) that does not match the payload `[1, 2]`. -/
def hC5 : Command := ⟨7, ⟨false, true, false, true, false⟩, 0, ⟨0, 0x500⟩, 2, 0⟩

/-- a slave mapped at virtual `[10, 14)` from register 0. -/
def stV : SlaveState := ⟨List.replicate 1280 0, [⟨10, 0, 4⟩], 0, List.replicate 4096 0⟩

/-- virtual read of 4 bytes at virtual address 6 (interval `[6, 10)`). -/
def hV : Command := ⟨7, ⟨true, false, false, false, false⟩, 0, ⟨6, 0⟩, 4, 0⟩

/-- a slave mapped (sorted) at virtual `[0, 2)` from register 0 and at
virtual `[8, 10)` from register 2. -/
def stV2 : SlaveState :=
  ⟨List.replicate 1280 0, [⟨0, 0, 2⟩, ⟨8, 2, 2⟩], 0, List.replicate 4096 0⟩

/-- virtual read of 1 byte at virtual address 8 (interval `[8, 9)`). -/
def hV2 : Command := ⟨7, ⟨true, false, false, false, false⟩, 0, ⟨8, 0⟩, 1, 0⟩

/-- a slave buffer holding a freshly written MAPPING table of one entry
`(virtual_start 0, slave_start 0x600, size 0x100)` — invalid because
`0x600 + 0x100 = 0x700` exceeds `MEM = 0x500`. -/
def bufC6 : List Nat :=
  ((List.replicate 1280 0).set 0xff 1).set 0x104 6 |>.set 0x106 1

/-- a slave with a previously configured mapping `[(1, 2, 3)]` whose buffer
has just received the invalid table of `bufC6`. -/
def stC6 : SlaveState := ⟨bufC6, [⟨1, 2, 3⟩], 0, List.replicate 4096 0⟩

/-- the offline mapping-builder scenario of the spec (test
`offline_mapping` in src/master/tests/single.rs): one slave
`Topological(42)`, buffer `a` of 6 bytes appending `u32@0x512` then
`u16@0x504`, buffer `b` of 10 bytes appending `u16@0x504`, `u32@0x500`,
`u32@0x512`. -/
def c9Scenario : Option (MappingBuilder × VirtualReg × VirtualReg) := do
  let h42 := Host.topological 42
  let s1 ← (MappingBuilder.new.buffer 6).toOption
  let s2 ← BufferMapping.register s1 h42 0x512 4
  let s3 ← BufferMapping.register s2 h42 0x504 2
  let a ← s3.2.build
  let s4 ← (s3.1.buffer 10).toOption
  let s5 ← BufferMapping.register s4 h42 0x504 2
  let s6 ← BufferMapping.register s5 h42 0x500 4
  let s7 ← BufferMapping.register s6 h42 0x512 4
  let b ← s7.2.build
  pure (s7.1, a, b)

/-- ordering used by the sort in `on_write`. -/
instance : IsTotal MappingEntry (fun a b => a.virtual_start ≤ b.virtual_start) :=
  ⟨fun a b => Nat.le_total a.virtual_start b.virtual_start⟩

instance : IsTrans MappingEntry (fun a b => a.virtual_start ≤ b.virtual_start) :=
  ⟨fun _ _ _ h1 h2 => Nat.le_trans h1 h2⟩

/-! ## Claim theorems -/

lemma byteAt_set_self (l : List Nat) (i v : Nat) (h : i < l.length) :
    byteAt (l.set i v) i = v := by
  simp [byteAt, List.getD, List.getElem?_set_self h]

lemma byteAt_set_ne (l : List Nat) (i j v : Nat) (h : i ≠ j) :
    byteAt (l.set i v) j = byteAt l j := by
  simp [byteAt, List.getD, List.getElem?_set_ne h]

lemma set_error_length (b : List Nat) (c : Nat) :
    (set_error b c).length = b.length := by
  unfold set_error
  split <;> simp [List.length_set]

lemma byteAt_set_error (b : List Nat) (h : 2 < b.length) :
    byteAt (set_error b 5) 2 = if byteAt b 2 = 0 then 5 else byteAt b 2 := by
  unfold set_error
  split <;> simp_all [byteAt_set_self]

lemma errFold_length (m : List MappingEntry) (b : List Nat) :
    (m.foldl (fun b e => if entryInvalid e b.length then set_error b 5 else b)
      b).length = b.length := by
  induction m generalizing b with
  | nil => rfl
  | cons e t ih =>
    rw [List.foldl_cons]
    by_cases he : entryInvalid e b.length
    · simp only [he, if_true]
      rw [ih (set_error b 5), set_error_length]
    · simp only [he, Bool.false_eq_true, if_false]
      exact ih b

lemma errFold_byte (m : List MappingEntry) (b : List Nat) (h : 2 < b.length) :
    byteAt (m.foldl (fun b e => if entryInvalid e b.length then set_error b 5
      else b) b) 2 =
    if (m.any fun e => entryInvalid e b.length) ∧ byteAt b 2 = 0 then 5
    else byteAt b 2 := by
  induction m generalizing b with
  | nil => simp
  | cons e t ih =>
    rw [List.foldl_cons]
    by_cases he : entryInvalid e b.length
    · by_cases hz : byteAt b 2 = 0
      · have h5 : byteAt (set_error b 5) 2 = 5 := by
          rw [byteAt_set_error b h]
          simp [hz]
        have hlen5 : (set_error b 5).length = b.length := set_error_length b 5
        simp only [he, if_true]
        rw [ih (set_error b 5) (by omega)]
        simp [h5, hlen5, he, hz]
      · have hb : set_error b 5 = b := by
          unfold set_error
          simp [hz]
        simp only [he, if_true, hb]
        rw [ih b h]
        simp [hz]
    · simp only [he, Bool.false_eq_true, if_false]
      rw [ih b h]
      simp [he]

/-- C6, amended: after every write to MAPPING whose table fits the 128-entry
capacity, the filtered table always becomes the active mapping — sorted
ascending by `virtual_start` and a permutation of the non-zero-size entries —
and when some installed entry fails the range validation (slave range beyond
`MEM` with 16-bit wrapping, or `virtual_start + size > 2^32 - 1`) ERROR is
set to `InvalidMapping` (5) if it was `None`; the previous mapping is *not*
retained in the invalid case. -/
theorem C6_mapping_write (st : SlaveState) (hsz : byteAt st.buffer 0xff ≤ 128)
    (hlen : 2 < st.buffer.length) :
    ∃ st', on_write st 0xff = some st' ∧
      List.Sorted (fun a b => a.virtual_start ≤ b.virtual_start) st'.mapping ∧
      st'.mapping.Perm
        (((List.range (byteAt st.buffer 0xff)).map
            (fun i => decodeEntry st.buffer (0x100 + 8 * i))).filter
          (fun e => e.size ≠ 0)) ∧
      st'.buffer.length = st.buffer.length ∧
      byteAt st'.buffer 2 =
        (if (st'.mapping.any fun e => entryInvalid e st.buffer.length) ∧
            byteAt st.buffer 2 = 0 then 5 else byteAt st.buffer 2) ∧
      st'.address = st.address ∧ st'.send = st.send := by
  unfold on_write
  rw [if_neg (by decide), if_pos rfl, if_pos hsz]
  refine ⟨_, rfl, ?_, ?_, ?_, ?_, rfl, rfl⟩
  · exact List.sorted_insertionSort _ _
  · exact List.perm_insertionSort _ _
  · exact errFold_length _ _
  · rw [errFold_byte _ _ hlen]

set_option maxRecDepth 8000 in
/-- C6, witness: the state `stC6` satisfies the hypotheses, and the amended
conclusion holds there. -/
theorem C6_mapping_write_witness :
    byteAt stC6.buffer 0xff ≤ 128 ∧ 2 < stC6.buffer.length ∧
    (∃ st', on_write stC6 0xff = some st' ∧
      List.Sorted (fun a b => a.virtual_start ≤ b.virtual_start) st'.mapping ∧
      st'.mapping.Perm
        (((List.range (byteAt stC6.buffer 0xff)).map
            (fun i => decodeEntry stC6.buffer (0x100 + 8 * i))).filter
          (fun e => e.size ≠ 0)) ∧
      st'.buffer.length = stC6.buffer.length ∧
      byteAt st'.buffer 2 =
        (if (st'.mapping.any fun e => entryInvalid e stC6.buffer.length) ∧
            byteAt stC6.buffer 2 = 0 then 5 else byteAt stC6.buffer 2) ∧
      st'.address = stC6.address ∧ st'.send = stC6.send) :=
  ⟨by decide, by decide, C6_mapping_write stC6 (by decide) (by decide)⟩

/-- C1, counterexample: `Command::to_be_bytes` does not produce 10 bytes —
the header of the all-zero command serializes to 11 bytes (the field widths
16+8+8+32+16+8 sum to 88 bits). -/
theorem C1_counterexample : ¬ cmdZero.to_be_bytes.length = 10 := by decide

/-- C1, amended: every command header serializes to exactly 11 big-endian
bytes, so one command transaction on the wire is the 11 header bytes, then
1 header-checksum byte, then the `size` data bytes. -/
theorem C1_header_eleven_bytes (c : Command) (d : List Nat) :
    c.to_be_bytes.length = 11 ∧ (transmitBytes c d).length = 11 + 1 + d.length := by
  constructor
  · simp [Command.to_be_bytes, u16be, u32be]
  · simp [transmitBytes, Command.to_be_bytes, u16be, u32be]
    omega

/-- C4: the `swap`-based try-lock of `BusyMutexGuard::try_new` is inverted.
On a fresh mutex (`locked = false`, the state at the first `run` invocation)
the guard is refused, so `Master::run` panics in its `expect` and
`Slave::run` returns without reading the bus; once the flag is `true`, any
later invocation is handed the guard.  This contradicts the claim (and the
code's own `expect("run function called twice")` message). -/
theorem C4_try_lock_inverted :
    runAcquires false = false ∧ runAcquires true = true ∧
    BusyMutex.try_new false = (none, true) ∧
    BusyMutex.try_new true = (some (), true) := by decide

/-- C7, counterexample: a payload of 2000 bytes exceeds the claimed
`MAX_COMMAND = 1024`, yet the master command succeeds and writes a 2012-byte
frame to the bus (the code's `MAX_COMMAND` is 4096). -/
lemma masterCommand_ok_shape (token g : Nat) (read write : Bool)
    (data : List Nat) (h : data.length < MAX_COMMAND) :
    exceptIsOk (masterCommand token (MAddress.virt g) read write data).1 = true ∧
    (masterCommand token (MAddress.virt g) read write data).2.length =
      12 + data.length := by
  constructor
  · simp [masterCommand, Topic.new, usize_to_message, h, Bind.bind,
      Except.bind, Pure.pure, Except.pure, Topic.send, exceptIsOk]
  · simp [masterCommand, Topic.new, usize_to_message, h, Bind.bind,
      Except.bind, Pure.pure, Except.pure, Topic.send, transmitBytes,
      Command.to_be_bytes, u16be, u32be]
    omega

theorem C7_counterexample :
    1024 < (List.replicate 2000 0).length ∧
    exceptIsOk (masterCommand 0 (MAddress.virt 0) true false
      (List.replicate 2000 0)).1 = true ∧
    (masterCommand 0 (MAddress.virt 0) true false
      (List.replicate 2000 0)).2.length = 2012 := by
  have hlen : (List.replicate 2000 (0 : Nat)).length = 2000 :=
    List.length_replicate 2000 0
  have h := masterCommand_ok_shape 0 0 true false (List.replicate 2000 0)
    (by rw [hlen]; decide)
  rw [hlen]
  refine ⟨by omega, h.1, by rw [h.2, hlen]⟩

/-- C7, amended: `MAX_COMMAND` is 4096, and a master-side command whose
payload length is at least `MAX_COMMAND` (the check is `size < MAX_COMMAND`)
fails with `MasterError("data is longer than maximum allowed message")`
before any byte is written to the bus. -/
theorem C7_oversize_rejected (token : Nat) (addr : MAddress) (read write : Bool)
    (data : List Nat) (h : MAX_COMMAND ≤ data.length) :
    masterCommand token addr read write data =
      (Except.error (MError.master "data is longer than maximum allowed message"),
       []) := by
  have h2 : ¬ data.length < MAX_COMMAND := by omega
  simp [masterCommand, Topic.new, usize_to_message, h2, Bind.bind, Except.bind]

/-- C7, witness: a 4096-byte payload is rejected with no bus write. -/
theorem C7_oversize_rejected_witness :
    masterCommand 0 (MAddress.virt 0) true false (List.replicate 4096 0) =
      (Except.error (MError.master "data is longer than maximum allowed message"),
       []) :=
  C7_oversize_rejected 0 (MAddress.virt 0) true false (List.replicate 4096 0)
    (by rw [List.length_replicate]; decide)

/-- C9: the offline mapping-builder scenario — `a.address = 0`, `a.size = 6`,
`b.address = 6`, `b.size = 10`, and the `Topological(42)` mapping list is, in
order, `(0→0x512,4), (4→0x504,2), (6→0x504,2), (8→0x500,4), (12→0x512,4)`. -/
theorem C9_offline_mapping :
    (c9Scenario.map fun r => (r.2.1, r.2.2)) = some (⟨0, 6⟩, ⟨6, 10⟩) ∧
    (c9Scenario.map fun r => r.1.map (Host.topological 42)) =
      some [⟨0, 0x512, 4⟩, ⟨4, 0x504, 2⟩, ⟨6, 0x504, 2⟩,
            ⟨8, 0x500, 4⟩, ⟨12, 0x512, 4⟩] := by decide

/-- C10: the buffer accessors behind `Slave::lock` perform the access exactly
when the register fits the buffer: `get` of `size` bytes at `addr` (and `set`
of `value`) succeed iff `addr + size ≤ MEM`, and panic (`none`) otherwise —
for user registers as for standard ones, since `addr` is arbitrary. -/
theorem C10_buffer_access_bounds (buffer : List Nat) (addr size : Nat)
    (value : List Nat) :
    ((SlaveBuffer.get buffer addr size).isSome ↔ addr + size ≤ buffer.length) ∧
    ((SlaveBuffer.set buffer addr value).isSome ↔
      addr + value.length ≤ buffer.length) := by
  constructor
  · unfold SlaveBuffer.get
    split <;> simp_all
  · unfold SlaveBuffer.set
    split <;> simp_all

/-- C5: at the failing input — a topological write addressed to this slave
(rank 0) whose payload `[1, 2]` does not match the header checksum, received
by a slave whose send scratch still holds stale bytes `9, 9` — the slave
increments LOSS to 1 and does not execute, but the frame it forwards carries
the stale scratch bytes `[9, 9]`, not the received payload `[1, 2]`. -/
theorem C5_stale_forward :
    hC5.checksum ≠ checksum [1, 2] ∧
    (receive_command stStale hC5 [1, 2]).map (fun o =>
        (o.executedFlag, getU16 o.state.buffer 3,
         o.forward.map fun f => (f.1.executed, f.2)))
      = some (false, 1, some (0, [9, 9])) ∧
    ([1, 2] : List Nat) ≠ [9, 9] := by decide

/-- C8, counterexample: a valid header with `size = 4097 > MAX_COMMAND` is
silently dropped — nothing is forwarded and the ERROR register stays 0
(`None`), not `InvalidSize`. -/
theorem C8_counterexample :
    MAX_COMMAND < hBig.size ∧
    (receive_command st0 hBig []).map (fun o => (o.forward, byteAt o.state.buffer 2))
      = some (none, 0) := by decide

/-- C8, amended: a frame whose `header.size` exceeds `MAX_COMMAND` is dropped
silently: the slave state (including the ERROR register) is unchanged,
nothing is transmitted, and the buffer is never locked. -/
theorem C8_oversize_dropped (st : SlaveState) (recv : Command) (data : List Nat)
    (h : MAX_COMMAND < recv.size) :
    receive_command st recv data = some ⟨st, none, false, false⟩ := by
  simp [receive_command, h]

/-- C8, witness: the 4097-byte command against the fresh slave. -/
theorem C8_oversize_dropped_witness :
    receive_command st0 hBig [] = some ⟨st0, none, false, false⟩ :=
  C8_oversize_dropped st0 hBig [] (by decide)

set_option maxRecDepth 8000 in
/-- C6, counterexample: writing a MAPPING table containing the invalid entry
`(0, 0x600, 0x100)` (its slave range ends at `0x700 > MEM = 0x500`) to a
slave whose previous mapping was `[(1, 2, 3)]` sets ERROR = `InvalidMapping`
(5) but does **not** leave the previous mapping intact: the invalid table
becomes the active mapping. -/
theorem C6_counterexample :
    stC6.mapping = [⟨1, 2, 3⟩] ∧ byteAt stC6.buffer 2 = 0 ∧
    (on_write stC6 0xff).map (fun st => (st.mapping, byteAt st.buffer 2))
      = some ([⟨0, 0x600, 0x100⟩], 5) ∧
    ([⟨0, 0x600, 0x100⟩] : List MappingEntry) ≠ [⟨1, 2, 3⟩] := by decide

lemma copyAt_zero (dst src : List Nat) (h : src.length ≤ dst.length) :
    copyAt dst 0 src = some (src ++ dst.drop src.length) := by
  unfold copyAt
  rw [if_pos (by omega)]
  simp

lemma copyAt_zero_length (dst src : List Nat) (h : src.length ≤ dst.length) :
    (src ++ dst.drop src.length).length = dst.length := by
  simp [List.length_append, List.length_drop]
  omega

lemma take_append_drop_self (src rest : List Nat) :
    (src ++ rest).take src.length = src :=
  List.take_left src rest

/-- a non-matching slave on a topological frame: the rank is decremented
(wrapping) in the forwarded header, the payload passes through unchanged, the
buffer is untouched and never locked, and the slave does not execute. -/
lemma step_topo_nomatch (st : SlaveState) (h : Command) (d : List Nat)
    (hinv : slaveInv st) (hwf : topoWF h d) (hr : h.address.slave ≠ 0) :
    receive_command st h d =
      some ⟨{ st with send := d ++ st.send.drop d.length },
            some ({ h with address := { h.address with
                slave := (h.address.slave + 65535) % 65536 } }, d),
            false, false⟩ := by
  obtain ⟨htop, hfix, hsz, hd, hsl⟩ := hwf
  obtain ⟨hsend, _⟩ := hinv
  have hns : ¬ MAX_COMMAND < h.size := not_lt.mpr hsz
  have hcopy : copyAt st.send 0 d = some (d ++ st.send.drop d.length) :=
    copyAt_zero st.send d (by omega)
  have htake : (d ++ st.send.drop d.length).take h.size = d := by
    rw [← hd]
    exact take_append_drop_self d (st.send.drop d.length)
  have hmod : (h.address.slave % 2 ^ 16 + 2 ^ 16 - 1) % 2 ^ 16 =
      (h.address.slave + 65535) % 65536 := by omega
  unfold receive_command process_command
  rw [if_neg hns]
  simp [htop, hfix, hr, hcopy, htake, hmod, Option.bind]

/-- a run of slaves none of which a topological frame matches: every slave
decrements the rank in the forwarded header, nobody executes or locks, and
payload, executed count and the rest of the header pass through unchanged. -/
lemma chain_nomatch (L : List SlaveState) (h : Command) (d : List Nat)
    (hinv : ∀ st ∈ L, slaveInv st) (hwf : topoWF h d)
    (hr : ∀ i, i < L.length → (h.address.slave + i * 65535) % 65536 ≠ 0) :
    ∃ outs, chain L h d =
      some (outs, { h with address := { h.address with
          slave := (h.address.slave + L.length * 65535) % 65536 } }, d) ∧
      outs.length = L.length ∧
      outs.map (fun o => (o.executedFlag, o.locked)) =
        List.replicate L.length (false, false) ∧
      outs.map (fun o => o.forward.map fun f =>
          (f.1.address.slave, f.1.executed, f.2)) =
        (List.range L.length).map
          (fun i => some ((h.address.slave + (i + 1) * 65535) % 65536,
                          h.executed, d)) := by
  induction L generalizing h with
  | nil =>
    have hs : h.address.slave < 2 ^ 16 := hwf.2.2.2.2
    obtain ⟨tok, acc, exec, ⟨sl, reg⟩, sz, ck⟩ := h
    refine ⟨[], ?_, rfl, rfl, rfl⟩
    simp only [] at hs
    simp [chain]
    omega
  | cons st rest ih =>
    have hs : h.address.slave < 2 ^ 16 := hwf.2.2.2.2
    have hr0 : h.address.slave ≠ 0 := by
      have := hr 0 (by simp)
      omega
    have hstep := step_topo_nomatch st h d (hinv st (by simp)) hwf hr0
    obtain ⟨tok, acc, exec, ⟨sl, reg⟩, sz, ck⟩ := h
    simp only [] at hstep hr hs ⊢
    set h1 : Command := ⟨tok, acc, exec, ⟨(sl + 65535) % 65536, reg⟩, sz, ck⟩
      with hh1
    have hwf1 : topoWF h1 d := by
      refine ⟨hwf.1, hwf.2.1, hwf.2.2.1, hwf.2.2.2.1, ?_⟩
      simp only [hh1]
      omega
    have hr1 : ∀ i, i < rest.length → (h1.address.slave + i * 65535) % 65536 ≠ 0 := by
      intro i hi
      have := hr (i + 1) (by simp; omega)
      simp only [hh1]
      omega
    obtain ⟨outs, hchain, hlen, hflags, hfwd⟩ :=
      ih h1 (fun s hm => hinv s (by simp [hm])) hwf1 hr1
    refine ⟨⟨{ st with send := d ++ st.send.drop d.length },
             some (h1, d), false, false⟩ :: outs, ?_, ?_, ?_, ?_⟩
    · have hchain2 := hchain
      simp only [hh1] at hchain2
      simp only [chain, hstep, Bind.bind, Option.some_bind, Option.bind, hh1]
      rw [hchain2]
      have hm1 : ((sl + 65535) % 65536 + rest.length * 65535) % 65536 =
          (sl + (rest.length + 1) * 65535) % 65536 := by omega
      simp [hm1]
    · simp [hlen]
    · simp [hflags, List.replicate_succ]
    · simp only [List.map_cons, Option.map_some, hfwd, List.length_cons,
        List.range_succ_eq_map, List.map_map, List.cons.injEq]
      constructor
      · simp [hh1]
      · refine List.map_congr_left ?_
        intro i _
        simp only [Function.comp, hh1]
        have hm2 : ((sl + 65535) % 65536 + (i + 1) * 65535) % 65536 =
            (sl + (i + 1 + 1) * 65535) % 65536 := by omega
        simp [hm2, Nat.succ_eq_add_one]

lemma byteAt_write_head (b d : List Nat) (p : Nat) (hp : p + d.length ≤ b.length) :
    byteAt (b.take p ++ d ++ b.drop (p + d.length)) p = d.headD (byteAt b p) := by
  cases d with
  | nil => simp [List.take_append_drop]
  | cons x tl =>
    have hlen : (b.take p).length = p := by
      simp only [List.length_take]
      simp only [List.length_cons] at hp
      omega
    simp only [List.headD_cons, byteAt, List.getD, List.append_assoc]
    rw [List.get?_append_right (by omega)]
    simp [hlen]

/-- `on_write` succeeds (no panic) whenever a write landing on MAPPING
carries a table size within capacity; it never touches the send scratch and
preserves the buffer length. -/
lemma on_write_some (st : SlaveState) (r : Nat)
    (hcap : r = 0xff → byteAt st.buffer 0xff ≤ 128) :
    ∃ st', on_write st r = some st' ∧ st'.send = st.send ∧
      st'.buffer.length = st.buffer.length := by
  unfold on_write
  by_cases h0 : r = 0x0
  · exact ⟨{ st with address := getU16 st.buffer 0 }, by rw [if_pos h0], rfl, rfl⟩
  · rw [if_neg h0]
    by_cases h255 : r = 0xff
    · rw [if_pos h255, if_pos (hcap h255)]
      exact ⟨_, rfl, rfl, errFold_length _ _⟩
    · exact ⟨_, by rw [if_neg h255], rfl, rfl⟩

/-- `exchange_slave` succeeds when the register window fits the buffer and a
MAPPING write has a table size within capacity; the send header gets the
buffer chunk's checksum on reads, and the send scratch is the chunk (read)
or the received payload (plain write). -/
lemma exchange_slave_some (st : SlaveState) (sh h : Command) (d : List Nat)
    (hinv : slaveInv st) (hd : d.length = h.size) (hsz : h.size ≤ MAX_COMMAND)
    (hreg : h.address.register + h.size ≤ st.buffer.length)
    (hmap : h.access.write = true → h.address.register = 0xff →
      d.headD (byteAt st.buffer 0xff) ≤ 128) :
    ∃ st', exchange_slave st sh h d =
      some (st',
        (if h.access.read then
          { sh with checksum :=
              checksum ((st.buffer.drop h.address.register).take h.size) }
         else sh), none) ∧
      st'.send.take h.size =
        (if h.access.read then (st.buffer.drop h.address.register).take h.size
         else d) ∧
      st'.send.length = MAX_COMMAND := by
  obtain ⟨hsend, hbuf⟩ := hinv
  set r := h.address.register with hrdef
  set chunk := (st.buffer.drop r).take h.size with hchunkdef
  have hchunklen : chunk.length = h.size := by
    simp only [hchunkdef, List.length_take, List.length_drop]
    omega
  have hcopyr : copyAt st.send 0 chunk = some (chunk ++ st.send.drop chunk.length) :=
    copyAt_zero st.send chunk (by omega)
  have hcopyw : copyAt st.send 0 d = some (d ++ st.send.drop d.length) :=
    copyAt_zero st.send d (by omega)
  have htaker : (chunk ++ st.send.drop chunk.length).take h.size = chunk := by
    rw [← hchunklen]
    exact take_append_drop_self chunk (st.send.drop chunk.length)
  have htakew : (d ++ st.send.drop d.length).take h.size = d := by
    rw [← hd]
    exact take_append_drop_self d (st.send.drop d.length)
  unfold exchange_slave
  rw [if_neg (by omega)]
  by_cases hread : h.access.read
  · simp only [hread, if_true, ← hrdef, ← hchunkdef, hcopyr, Bind.bind,
      Option.bind, Option.some_bind, htaker]
    by_cases hw : h.access.write
    · have hbufw : copyAt st.buffer r d =
          some (st.buffer.take r ++ d ++ st.buffer.drop (r + d.length)) := by
        unfold copyAt
        rw [if_pos (by omega)]
      have hcap : r = 0xff →
          byteAt (st.buffer.take r ++ d ++ st.buffer.drop (r + d.length)) 0xff ≤ 128 := by
        intro h255
        rw [h255, byteAt_write_head st.buffer d 0xff (by omega)]
        exact hmap hw h255
      obtain ⟨st2, h2, hsend2, hlen2⟩ := on_write_some
        (SlaveState.mk (st.buffer.take r ++ d ++ st.buffer.drop (r + d.length))
          st.mapping st.address (chunk ++ st.send.drop chunk.length)) r hcap
      simp only [hw, if_true, hbufw, Bind.bind, Option.bind, Option.some_bind, h2]
      refine ⟨st2, rfl, ?_, ?_⟩
      · rw [hsend2]
        exact htaker
      · rw [hsend2]
        simp only [List.length_append, List.length_drop]
        omega
    · simp only [hw, Bool.false_eq_true, if_false]
      refine ⟨_, rfl, htaker, ?_⟩
      simp only [List.length_append, List.length_drop]
      omega
  · simp only [hread, Bool.false_eq_true, if_false, ← hrdef, hcopyw,
      Bind.bind, Option.bind, Option.some_bind]
    by_cases hw : h.access.write
    · have hbufw : copyAt st.buffer r d =
          some (st.buffer.take r ++ d ++ st.buffer.drop (r + d.length)) := by
        unfold copyAt
        rw [if_pos (by omega)]
      have hcap : r = 0xff →
          byteAt (st.buffer.take r ++ d ++ st.buffer.drop (r + d.length)) 0xff ≤ 128 := by
        intro h255
        rw [h255, byteAt_write_head st.buffer d 0xff (by omega)]
        exact hmap hw h255
      obtain ⟨st2, h2, hsend2, hlen2⟩ := on_write_some
        (SlaveState.mk (st.buffer.take r ++ d ++ st.buffer.drop (r + d.length))
          st.mapping st.address (d ++ st.send.drop d.length)) r hcap
      simp only [hw, if_true, hbufw, Bind.bind, Option.bind, Option.some_bind, h2]
      refine ⟨st2, rfl, ?_, ?_⟩
      · rw [hsend2]
        exact htakew
      · rw [hsend2]
        simp only [List.length_append, List.length_drop]
        omega
    · simp only [hw, Bool.false_eq_true, if_false]
      refine ⟨_, rfl, htakew, ?_⟩
      simp only [List.length_append, List.length_drop]
      omega

/-- the slave a topological frame addresses (rank 0): it decrements the rank
(wrapping to 65535), increments `executed`, locks its buffer and exchanges
the requested register window; on a read the forwarded payload is the buffer
chunk and the data checksum is updated, otherwise the payload passes
through. -/
lemma step_topo_match (st : SlaveState) (h : Command) (d : List Nat)
    (hinv : slaveInv st) (hwf : topoWF h d) (hr : h.address.slave = 0)
    (hm : matchWF st h d) :
    ∃ st',
      receive_command st h d =
        some ⟨st',
          some ({ h with
              address := { h.address with slave := 65535 },
              executed := (h.executed + 1) % 256,
              checksum := if h.access.read
                then checksum ((st.buffer.drop h.address.register).take h.size)
                else h.checksum },
            if h.access.read then (st.buffer.drop h.address.register).take h.size
            else d),
          true, true⟩ ∧
      st'.send.length = MAX_COMMAND := by
  have hd := hwf.2.2.2.1
  have hsz := hwf.2.2.1
  obtain ⟨htop, hfix, _, _, _⟩ := hwf
  have hns : ¬ MAX_COMMAND < h.size := not_lt.mpr hsz
  obtain ⟨st2, hex, htake, hlen2⟩ := exchange_slave_some st
    { h with address := { h.address with slave := 65535 },
             executed := (h.executed + 1) % 256 } h d hinv hd hsz hm.1
    (fun hw => (hm.2 hw).2)
  have hck : ¬ (h.access.write = true ∧ ¬ h.checksum = checksum d) := by
    rintro ⟨hw, hne⟩
    exact hne (hm.2 hw).1
  obtain ⟨tok, acc, exec, ⟨sl, reg⟩, sz, ck⟩ := h
  simp only [] at hr
  subst hr
  simp only [] at htop hfix hns hck hd hsz hex htake hlen2 ⊢
  refine ⟨st2, ?_, hlen2⟩
  unfold receive_command process_command
  rw [if_neg hns]
  by_cases hread : acc.read = true
  · simp [htop, hfix, hck, Bind.bind, Option.bind, hex, htake, hread]
  · simp only [Bool.not_eq_true] at hread
    simp [htop, hfix, hck, Bind.bind, Option.bind, hex, htake, hread]

lemma chain_append (L1 L2 : List SlaveState) (h : Command) (d : List Nat) :
    chain (L1 ++ L2) h d =
      (chain L1 h d).bind fun r =>
        (chain L2 r.2.1 r.2.2).bind fun r2 =>
          some (r.1 ++ r2.1, r2.2.1, r2.2.2) := by
  induction L1 generalizing h d with
  | nil =>
    simp only [List.nil_append, chain, Bind.bind, Option.bind]
    cases chain L2 h d with
    | none => rfl
    | some r => simp
  | cons st rest ih =>
    simp only [List.cons_append, chain, Bind.bind, Option.bind]
    cases receive_command st h d with
    | none => rfl
    | some o =>
      obtain ⟨stO, fwd, lk, ex⟩ := o
      cases fwd with
      | none => rfl
      | some f =>
        obtain ⟨h1, d1⟩ := f
        simp only [List.append_eq, ih, Bind.bind, Option.bind]
        cases chain rest h1 d1 with
        | none => rfl
        | some r =>
          obtain ⟨outs1, hf1, df1⟩ := r
          simp only []
          cases chain L2 hf1 df1 with
          | none => rfl
          | some r2 => simp

/-- composing three successful chain segments; stated over variables so it
can be instantiated with large concrete lists without reducing them. -/
lemma chain_append3 {L1 L2 L3 : List SlaveState} {h : Command} {d : List Nat}
    {o1 o2 o3 : List StepOut} {h1 h2 h3 : Command} {d1 d2 d3 : List Nat}
    (hc1 : chain L1 h d = some (o1, h1, d1))
    (hc2 : chain L2 h1 d1 = some (o2, h2, d2))
    (hc3 : chain L3 h2 d2 = some (o3, h3, d3)) :
    chain ((L1 ++ L2) ++ L3) h d = some ((o1 ++ o2) ++ o3, h3, d3) := by
  rw [chain_append, chain_append, hc1]
  simp only [Option.some_bind]
  rw [hc2]
  simp only [Option.some_bind]
  rw [hc3]
  simp only [Option.some_bind]

lemma range_map_decide_eq (k m : Nat) :
    (List.range (k + 1 + m)).map (fun i => decide (i = k)) =
      List.replicate k false ++ true :: List.replicate m false := by
  have hassoc : List.replicate k false ++ true :: List.replicate m false =
      (List.replicate k false ++ [true]) ++ List.replicate m false := by
    simp
  rw [hassoc, List.range_add, List.map_append, List.map_map]
  congr 1
  · rw [List.range_succ, List.map_append]
    congr 1
    · rw [List.eq_replicate_iff]
      refine ⟨by simp, ?_⟩
      intro b hb
      simp only [List.mem_map, List.mem_range] at hb
      obtain ⟨i, hi, hbi⟩ := hb
      simp only [← hbi, decide_eq_false_iff_not]
      omega
    · simp
  · rw [List.eq_replicate_iff]
    refine ⟨by simp, ?_⟩
    intro b hb
    simp only [List.mem_map, List.mem_range, Function.comp] at hb
    obtain ⟨i, hi, hbi⟩ := hb
    simp only [← hbi, decide_eq_false_iff_not]
    omega

lemma range_map_split {α : Type} (k m : Nat) (g : Nat → α) :
    (List.range (k + 1 + m)).map g =
      (List.range k).map g ++ g k :: (List.range m).map (fun j => g (k + 1 + j)) := by
  rw [List.range_add, List.map_append, List.map_map, List.range_succ,
    List.map_append]
  simp [Function.comp]

lemma map_flags_proj (outs : List StepOut) (n : Nat)
    (hf : outs.map (fun o => (o.executedFlag, o.locked)) =
      List.replicate n (false, false)) :
    outs.map (fun o => o.executedFlag) = List.replicate n false := by
  have h2 := congrArg (List.map Prod.fst) hf
  simpa [List.map_map, Function.comp, List.map_replicate] using h2

lemma map_forward_proj (outs : List StepOut) (n : Nat)
    (g : Nat → Nat × Nat × List Nat)
    (hf : outs.map (fun o => o.forward.map fun fr =>
        (fr.1.address.slave, fr.1.executed, fr.2)) =
      (List.range n).map (fun i => some (g i))) :
    outs.map (fun o => o.forward.map fun fr => fr.1.address.slave) =
      (List.range n).map (fun i => some (g i).1) := by
  calc outs.map (fun o => o.forward.map fun fr => fr.1.address.slave)
      = (outs.map (fun o => o.forward.map fun fr =>
          (fr.1.address.slave, fr.1.executed, fr.2))).map
            (Option.map (fun t => t.1)) := by
        rw [List.map_map]
        apply List.map_congr_left
        intro o _
        cases hfw : o.forward <;> simp [hfw, Function.comp]
    _ = ((List.range n).map (fun i => some (g i))).map
          (Option.map (fun t => t.1)) := by rw [hf]
    _ = (List.range n).map (fun i => some (g i).1) := by
        rw [List.map_map]
        apply List.map_congr_left
        intro i _
        simp [Function.comp]

lemma st0_inv : slaveInv st0 := by
  constructor
  · show (List.replicate 4096 (0 : Nat)).length = MAX_COMMAND
    rw [List.length_replicate]
    rfl
  · show (0x500 : Nat) ≤ (List.replicate 1280 (0 : Nat)).length
    rw [List.length_replicate]

lemma hTopoRead_wf : topoWF hTopoRead [0] :=
  ⟨rfl, rfl, by decide, by decide, by decide⟩

lemma st0_match : matchWF st0 hTopoRead [0] := by
  refine ⟨?_, ?_⟩
  · show 0x5 + (1 : Nat) ≤ (List.replicate 1280 (0 : Nat)).length
    rw [List.length_replicate]
    decide
  · intro hw
    exact absurd hw (by decide)

lemma st0_chunk : (st0.buffer.drop 0x5).take 1 = [0] := by
  show ((List.replicate 1280 (0 : Nat)).drop 0x5).take 1 = [0]
  rw [List.drop_replicate, List.take_replicate]
  norm_num

lemma hTopoFwd1_wf : topoWF hTopoFwd1 [0] :=
  ⟨rfl, rfl, by decide, by decide, by decide⟩

lemma hTopoFwd2_wf : topoWF hTopoFwd2 [0] :=
  ⟨rfl, rfl, by decide, by decide, by decide⟩

lemma st0_match2 : matchWF st0 hTopoFwd2 [0] := by
  refine ⟨?_, ?_⟩
  · show 0x5 + (1 : Nat) ≤ (List.replicate 1280 (0 : Nat)).length
    rw [List.length_replicate]
    decide
  · intro hw
    exact absurd hw (by decide)

set_option maxRecDepth 4000 in
/-- C2, counterexample: on a chain of 65537 identical slaves, the
well-formed topological frame of rank 0 is executed by **two** slaves —
position 0 and position 65536, where the u16 rank has wrapped back to 0 —
and the executed count looping back to the master is 2, not 1. -/
theorem C2_counterexample :
    topoWF hTopoRead [0] ∧ matchWF st0 hTopoRead [0] ∧
    (chain (List.replicate 65537 st0) hTopoRead [0]).map
      (fun r => (r.2.1.executed, r.1.map fun o => o.executedFlag)) =
      some (2, true :: (List.replicate 65535 false ++ [true])) := by
  refine ⟨hTopoRead_wf, st0_match, ?_⟩
  have hsplit : List.replicate 65537 st0
      = ([st0] ++ List.replicate 65535 st0) ++ [st0] := by
    have h1 : (65537 : Nat) = 1 + 65535 + 1 := by norm_num
    rw [h1, List.replicate_add, List.replicate_add, List.replicate_one]
  -- position 0: the rank-0 slave executes and forwards `hTopoFwd1`
  obtain ⟨stA, hstepA, hlenA⟩ :=
    step_topo_match st0 hTopoRead [0] st0_inv hTopoRead_wf rfl st0_match
  have hstepA2 : receive_command st0 hTopoRead [0] =
      some ⟨stA, some (hTopoFwd1, [0]), true, true⟩ := by
    rw [hstepA]
    norm_num [hTopoRead, hTopoFwd1, st0_chunk]
  -- positions 1 to 65535: nobody matches, the rank wraps back to 0
  obtain ⟨outsB, hcB, hlenB, hflagsB, _⟩ :=
    chain_nomatch (List.replicate 65535 st0) hTopoFwd1 [0]
      (fun s hs => by rw [List.eq_of_mem_replicate hs]; exact st0_inv)
      hTopoFwd1_wf
      (by
        intro i hi
        rw [List.length_replicate] at hi
        show (65535 + i * 65535) % 65536 ≠ 0
        omega)
  have hhdrB : ({ hTopoFwd1 with address := { hTopoFwd1.address with
      slave := (hTopoFwd1.address.slave +
        (List.replicate 65535 st0).length * 65535) % 65536 } } : Command)
      = hTopoFwd2 := by
    norm_num [hTopoFwd1, hTopoFwd2, List.length_replicate]
  rw [hhdrB] at hcB
  -- position 65536: the wrapped rank 0 matches again
  obtain ⟨stC, hstepC, hlenC⟩ :=
    step_topo_match st0 hTopoFwd2 [0] st0_inv hTopoFwd2_wf rfl st0_match2
  have hstepC2 : receive_command st0 hTopoFwd2 [0] =
      some ⟨stC, some (hTopoFwd3, [0]), true, true⟩ := by
    rw [hstepC]
    norm_num [hTopoFwd2, hTopoFwd3, st0_chunk]
  have hfl : outsB.map (fun o => o.executedFlag) = List.replicate 65535 false := by
    have hp := map_flags_proj outsB (List.replicate 65535 st0).length hflagsB
    rwa [List.length_replicate] at hp
  have hc1 : chain [st0] hTopoRead [0] =
      some ([⟨stA, some (hTopoFwd1, [0]), true, true⟩], hTopoFwd1, [0]) := by
    simp only [chain, Bind.bind, Option.bind, hstepA2]
  have hc3 : chain [st0] hTopoFwd2 [0] =
      some ([⟨stC, some (hTopoFwd3, [0]), true, true⟩], hTopoFwd3, [0]) := by
    simp only [chain, Bind.bind, Option.bind, hstepC2]
  rw [hsplit, chain_append3 hc1 hcB hc3]
  simp only [Option.map_some', List.map_cons, List.map_append, List.map_nil,
    hfl, Prod.mk.injEq, Option.some.injEq]
  constructor
  · norm_num [hTopoFwd3]
  · simp only [List.cons_append, List.nil_append, List.append_assoc]

/-- C2: on a chain of `N ≤ 65536` slaves, a well-formed topological frame
with initial rank `k < N` is executed by exactly the slave at position `k`;
every slave, matching or not, decrements the rank of the forwarded header
(wrapping at 0, so the rank after `i + 1` slaves is
`(k + (i+1) * 65535) % 65536`), and the executed count looping back to the
master equals 1.  (Beyond 65536 slaves the u16 rank wraps and a second slave
matches.) -/
theorem C2_topological_chain (sts : List SlaveState) (h : Command)
    (d : List Nat) (k : Nat) (hN : sts.length ≤ 65536) (hk : k < sts.length)
    (hinv : ∀ st ∈ sts, slaveInv st) (hwf : topoWF h d)
    (hrank : h.address.slave = k) (hexec : h.executed = 0)
    (hmatch : matchWF (sts.get ⟨k, hk⟩) h d) :
    ∃ outs hf df, chain sts h d = some (outs, hf, df) ∧
      hf.executed = 1 ∧
      outs.length = sts.length ∧
      outs.map (fun o => o.executedFlag) =
        (List.range sts.length).map (fun i => decide (i = k)) ∧
      outs.map (fun o => o.forward.map fun fr => fr.1.address.slave) =
        (List.range sts.length).map
          (fun i => some ((k + (i + 1) * 65535) % 65536)) := by
  set pre := sts.take k with hpre
  set mid := sts.get ⟨k, hk⟩ with hmid
  set post := sts.drop (k + 1) with hpost
  have hprelen : pre.length = k := by
    simp only [hpre, List.length_take]
    omega
  have hpostlen : post.length = sts.length - (k + 1) := by
    simp only [hpost, List.length_drop]
  have hsplit : sts = pre ++ mid :: post := by
    have h1 : sts.drop k = mid :: post := by
      rw [List.drop_eq_getElem_cons hk]
      rfl
    rw [hpre, ← h1, List.take_append_drop]
  -- phase 1: the k slaves before the match
  have hinv1 : ∀ st ∈ pre, slaveInv st :=
    fun s hs => hinv s (List.take_subset k sts hs)
  have hr1 : ∀ i, i < pre.length → (h.address.slave + i * 65535) % 65536 ≠ 0 := by
    intro i hi
    rw [hrank]
    rw [hprelen] at hi
    omega
  obtain ⟨outs1, hc1, hlen1, hflags1, hfwd1⟩ := chain_nomatch pre h d hinv1 hwf hr1
  set h1 : Command := { h with address := { h.address with
      slave := (h.address.slave + pre.length * 65535) % 65536 } } with hh1
  have hs1 : h1.address.slave = 0 := by
    simp only [hh1, hrank, hprelen]
    omega
  have hacc1 : h1.access = h.access := by rw [hh1]
  have hwf1 : topoWF h1 d := by
    obtain ⟨a, b, c, e, f⟩ := hwf
    exact ⟨by rw [hacc1]; exact a, by rw [hacc1]; exact b, c, e, by rw [hs1]; omega⟩
  have hmatch1 : matchWF mid h1 d := by
    obtain ⟨a, b⟩ := hmatch
    exact ⟨a, b⟩
  -- phase 2: the matching slave
  have hmidmem : mid ∈ sts := by
    rw [hmid]
    exact List.get_mem sts k hk
  obtain ⟨stmid, hstep, hlenmid⟩ :=
    step_topo_match mid h1 d (hinv mid hmidmem) hwf1 hs1 hmatch1
  set d2 : List Nat := if h1.access.read = true
    then (mid.buffer.drop h1.address.register).take h1.size else d with hd2
  set h2 : Command := { h1 with
      address := { h1.address with slave := 65535 },
      executed := (h1.executed + 1) % 256,
      checksum := if h1.access.read = true
        then checksum ((mid.buffer.drop h1.address.register).take h1.size)
        else h1.checksum } with hh2
  have hd2len : d2.length = h.size := by
    rw [hd2]
    by_cases hread : h1.access.read = true
    · rw [if_pos hread]
      simp only [hh1, List.length_take, List.length_drop]
      have := hmatch1.1
      simp only [hh1] at this
      omega
    · rw [if_neg hread]
      exact hwf.2.2.2.1
  have hexec2 : h2.executed = 1 := by
    simp only [hh2, hh1, hexec]
  have hacc2 : h2.access = h.access := by rw [hh2, hacc1]
  have hwf2 : topoWF h2 d2 := by
    obtain ⟨a, b, c, e, f⟩ := hwf
    refine ⟨by rw [hacc2]; exact a, by rw [hacc2]; exact b, ?_, ?_, ?_⟩
    · simp only [hh2, hh1]
      exact c
    · simp only [hh2, hh1]
      exact hd2len
    · simp only [hh2]
      omega
  -- phase 3: the slaves after the match
  have hinv3 : ∀ st ∈ post, slaveInv st :=
    fun s hs => hinv s (List.drop_subset (k + 1) sts hs)
  have hr3 : ∀ i, i < post.length → (h2.address.slave + i * 65535) % 65536 ≠ 0 := by
    intro i hi
    rw [hpostlen] at hi
    simp only [hh2]
    omega
  obtain ⟨outs3, hc3, hlen3, hflags3, hfwd3⟩ := chain_nomatch post h2 d2 hinv3 hwf2 hr3
  -- glue
  have hchaincons : chain (mid :: post) h1 d =
      some (⟨stmid, some (h2, d2), true, true⟩ :: outs3,
        { h2 with address := { h2.address with
            slave := (h2.address.slave + post.length * 65535) % 65536 } }, d2) := by
    simp only [chain, Bind.bind, Option.bind, hstep]
    have hfwd : (⟨stmid, some (h2, d2), true, true⟩ : StepOut).forward
        = some (h2, d2) := rfl
    simp only [hc3]
  have hall : chain sts h d =
      some (outs1 ++ ⟨stmid, some (h2, d2), true, true⟩ :: outs3,
        { h2 with address := { h2.address with
            slave := (h2.address.slave + post.length * 65535) % 65536 } }, d2) := by
    rw [hsplit, chain_append, hc1, Option.some_bind, hchaincons, Option.some_bind]
  have hlensts : sts.length = k + 1 + post.length := by
    rw [hsplit]
    simp only [List.length_append, List.length_cons, hprelen]
    omega
  refine ⟨_, _, _, hall, ?_, ?_, ?_, ?_⟩
  · simp only [hh2, hh1, hexec]
  · simp only [List.length_append, List.length_cons, hlen1, hlen3, hprelen,
      hlensts]
    omega
  · rw [List.map_append, List.map_cons]
    rw [map_flags_proj outs1 pre.length hflags1,
      map_flags_proj outs3 post.length hflags3]
    rw [hlensts, range_map_decide_eq k post.length, hprelen]
  · rw [List.map_append, List.map_cons]
    have hp1 := map_forward_proj outs1 pre.length
      (fun i => ((h.address.slave + (i + 1) * 65535) % 65536, h.executed, d)) hfwd1
    have hp3 := map_forward_proj outs3 post.length
      (fun i => ((h2.address.slave + (i + 1) * 65535) % 65536, h2.executed, d2)) hfwd3
    rw [hp1, hp3]
    rw [hlensts, range_map_split k post.length
      (fun i => some ((k + (i + 1) * 65535) % 65536))]
    congr 1
    · rw [hprelen]
      apply List.map_congr_left
      intro i _
      simp [hrank]
    · congr 1
      · simp only [hh2, Option.map_some', Option.some.injEq]
        omega
      · apply List.map_congr_left
        intro j _
        simp only [hh2, Option.some.injEq]
        omega

/-- C2, witness: a single-slave chain, rank 0, 2-byte read of register
0x500 — the hypotheses hold and the slave executes with `executed = 1`. -/
theorem C2_topological_chain_witness :
    topoWF hTopoRead [0] ∧ matchWF st0 hTopoRead [0] ∧
    (∃ outs hf df, chain [st0] hTopoRead [0] = some (outs, hf, df) ∧
      hf.executed = 1 ∧ outs.length = [st0].length ∧
      outs.map (fun o => o.executedFlag) =
        (List.range [st0].length).map (fun i => decide (i = 0)) ∧
      outs.map (fun o => o.forward.map fun fr => fr.1.address.slave) =
        (List.range [st0].length).map
          (fun i => some ((0 + (i + 1) * 65535) % 65536))) := by
  have hinvc : ∀ st ∈ [st0], slaveInv st := by
    intro st hst
    simp only [List.mem_singleton] at hst
    subst hst
    exact st0_inv
  exact ⟨hTopoRead_wf, st0_match, C2_topological_chain [st0] hTopoRead [0] 0
    (by decide) (by decide) hinvc hTopoRead_wf rfl rfl st0_match⟩

lemma map_frame_slave_bounds (e : MappingEntry) (h : Command) (memLen : Nat)
    (he : entryOk e memLen) (hh : h.address.toU32 + h.size < 2 ^ 32)
    {d1 d2 s1 s2 : Nat}
    (hr : map_frame_slave e h = some ((d1, d2), (s1, s2))) :
    d1 ≤ d2 ∧ d2 ≤ h.size ∧ s1 ≤ s2 ∧ s2 ≤ memLen ∧ d2 - d1 = s2 - s1 := by
  have hv : (e.virtual_start + e.size) % 2 ^ 32 = e.virtual_start + e.size :=
    Nat.mod_eq_of_lt he.2
  have hreq : (h.address.toU32 + h.size) % 2 ^ 32 = h.address.toU32 + h.size :=
    Nat.mod_eq_of_lt hh
  obtain ⟨hss, _⟩ := he
  simp only [map_frame_slave, hv, hreq] at hr
  by_cases hclip : min (e.virtual_start + e.size) (h.address.toU32 + h.size) ≤
      max e.virtual_start h.address.toU32
  · rw [if_pos hclip] at hr
    exact absurd hr (by simp)
  · rw [if_neg hclip] at hr
    simp only [Option.some.injEq, Prod.mk.injEq] at hr
    obtain ⟨⟨e1, e2⟩, e3, e4⟩ := hr
    omega

lemma foldCopy_read_some (window : List MappingEntry) (h : Command)
    (buffer s : List Nat)
    (hwin : ∀ e ∈ window, entryOk e buffer.length)
    (hh : h.address.toU32 + h.size < 2 ^ 32) (hs : h.size ≤ s.length) :
    ∃ s2, (window.foldlM (fun s e =>
        match map_frame_slave e h with
        | some ((a1, a2), (b1, b2)) => copyRange s a1 a2 buffer b1 b2
        | none => some s) s) = some s2 ∧ s2.length = s.length := by
  induction window generalizing s with
  | nil => exact ⟨s, rfl, rfl⟩
  | cons e t ih =>
    rw [List.foldlM_cons]
    cases hm : map_frame_slave e h with
    | none =>
      simp only [Bind.bind, Option.bind, Option.some_bind]
      exact ih s (fun x hx => hwin x (by simp [hx])) hs
    | some r =>
      obtain ⟨⟨a1, a2⟩, b1, b2⟩ := r
      obtain ⟨q1, q2, q3, q4, q5⟩ :=
        map_frame_slave_bounds e h buffer.length (hwin e (by simp)) hh hm
      have hcr : copyRange s a1 a2 buffer b1 b2 =
          some (s.take a1 ++ (buffer.drop b1).take (b2 - b1) ++ s.drop a2) := by
        unfold copyRange
        rw [if_pos ⟨q1, by omega, q3, q4, by omega⟩]
      have hlen : (s.take a1 ++ (buffer.drop b1).take (b2 - b1) ++
          s.drop a2).length = s.length := by
        simp only [List.length_append, List.length_take, List.length_drop]
        omega
      simp only [hcr, Bind.bind, Option.bind, Option.some_bind]
      obtain ⟨s3, hs3, hlen3⟩ := ih
        (s.take a1 ++ (buffer.drop b1).take (b2 - b1) ++ s.drop a2)
        (fun x hx => hwin x (by simp [hx])) (by omega)
      exact ⟨s3, hs3, by omega⟩

lemma foldCopy_write_some (window : List MappingEntry) (h : Command)
    (b data : List Nat) (memLen : Nat) (hb : b.length = memLen)
    (hwin : ∀ e ∈ window, entryOk e memLen)
    (hh : h.address.toU32 + h.size < 2 ^ 32) (hd : data.length = h.size) :
    ∃ b2, (window.foldlM (fun b e =>
        match map_frame_slave e h with
        | some ((a1, a2), (c1, c2)) => copyRange b c1 c2 data a1 a2
        | none => some b) b) = some b2 ∧ b2.length = memLen := by
  induction window generalizing b with
  | nil => exact ⟨b, rfl, hb⟩
  | cons e t ih =>
    rw [List.foldlM_cons]
    cases hm : map_frame_slave e h with
    | none =>
      simp only [Bind.bind, Option.bind, Option.some_bind]
      exact ih b hb (fun x hx => hwin x (by simp [hx]))
    | some r =>
      obtain ⟨⟨a1, a2⟩, c1, c2⟩ := r
      obtain ⟨q1, q2, q3, q4, q5⟩ :=
        map_frame_slave_bounds e h memLen (hwin e (by simp)) hh hm
      have hcr : copyRange b c1 c2 data a1 a2 =
          some (b.take c1 ++ (data.drop a1).take (a2 - a1) ++ b.drop c2) := by
        unfold copyRange
        rw [if_pos ⟨q3, by omega, q1, by omega, by omega⟩]
      have hlen : (b.take c1 ++ (data.drop a1).take (a2 - a1) ++
          b.drop c2).length = memLen := by
        simp only [List.length_append, List.length_take, List.length_drop]
        omega
      simp only [hcr, Bind.bind, Option.bind, Option.some_bind]
      exact ih (b.take c1 ++ (data.drop a1).take (a2 - a1) ++ b.drop c2) hlen
        (fun x hx => hwin x (by simp [hx]))

/-- a slave processing a well-formed virtual frame with a correctly
configured mapping: it always executes — incrementing `executed` — and locks
its buffer exactly when the bisected candidate window `[start, stop)` is
nonempty; the forwarded frame keeps token, access, address and size. -/
lemma step_virtual (st : SlaveState) (h : Command) (d : List Nat)
    (hinv : slaveInv st) (hwf : virtWF h d)
    (hmap : ∀ e ∈ st.mapping, entryOk e st.buffer.length) :
    ∃ st' sh d2,
      receive_command st h d = some ⟨st', some (sh, d2),
        decide ((virtWindow st.mapping h).1 < (virtWindow st.mapping h).2),
        true⟩ ∧
      sh.token = h.token ∧ sh.access = h.access ∧ sh.address = h.address ∧
      sh.size = h.size ∧ sh.executed = (h.executed + 1) % 256 ∧
      d2.length = h.size ∧
      (h.access.write = true → sh.checksum = checksum d2) ∧
      st'.mapping = st.mapping ∧ st'.buffer.length = st.buffer.length ∧
      st'.send.length = MAX_COMMAND := by
  obtain ⟨htop, hfix, hsz, hd, hcks, haddr⟩ := hwf
  obtain ⟨hsend, hbuf⟩ := hinv
  have hns : ¬ MAX_COMMAND < h.size := not_lt.mpr hsz
  have hcopy : copyAt st.send 0 d = some (d ++ st.send.drop d.length) :=
    copyAt_zero st.send d (by omega)
  have hlen1 : (d ++ st.send.drop d.length).length = st.send.length := by
    simp only [List.length_append, List.length_drop]
    omega
  have hck : ¬ (h.access.write = true ∧ ¬ h.checksum = checksum d) := by
    rintro ⟨hw, hne⟩
    exact hne (hcks hw)
  have htaked : (d ++ st.send.drop d.length).take h.size = d := by
    rw [← hd]
    exact take_append_drop_self d (st.send.drop d.length)
  set sh2 : Command := { h with executed := (h.executed + 1) % 256 } with hsh2
  rcases hwcase : virtWindow st.mapping h with ⟨start, stop⟩
  by_cases hlock : start < stop
  · -- window nonempty: the buffer is locked
    set window := (st.mapping.drop start).take (stop - start) with hwindef
    have hwinsub : ∀ e ∈ window, entryOk e st.buffer.length := by
      intro e hx
      exact hmap e (List.drop_subset start st.mapping
        (List.take_subset (stop - start) (st.mapping.drop start) hx))
    by_cases hread : h.access.read = true
    · obtain ⟨send2, hf2, hlen2⟩ := foldCopy_read_some window h st.buffer
        (d ++ st.send.drop d.length) hwinsub haddr (by omega)
      by_cases hw : h.access.write = true
      · obtain ⟨buf2, hfw, hlenw⟩ := foldCopy_write_some window h st.buffer d
          st.buffer.length rfl hwinsub haddr hd
        have hexv : exchange_virtual st sh2 h d = some
            ⟨⟨buf2, st.mapping, st.address, send2⟩,
             { sh2 with checksum := checksum (send2.take h.size) }, true⟩ := by
          unfold exchange_virtual
          simp only [hwcase, hcopy, Bind.bind, Option.bind, hread, hw,
            if_true, if_pos hlock, ← hwindef, hf2, hfw, Option.some_bind]
        refine ⟨⟨buf2, st.mapping, st.address, send2⟩,
          { sh2 with checksum := checksum (send2.take h.size) },
          send2.take h.size, ?_, rfl, rfl, rfl, rfl, rfl, ?_, ?_, rfl, ?_, ?_⟩
        · unfold receive_command process_command
          rw [if_neg hns]
          simp [htop, hfix, hck, Bind.bind, Option.bind, hexv, hwcase, hlock]
        · simp only [List.length_take]
          omega
        · intro _
          rfl
        · exact hlenw
        · show send2.length = MAX_COMMAND
          omega
      · have hexv : exchange_virtual st sh2 h d = some
            ⟨⟨st.buffer, st.mapping, st.address, send2⟩,
             { sh2 with checksum := checksum (send2.take h.size) }, true⟩ := by
          unfold exchange_virtual
          simp only [hwcase, hcopy, Bind.bind, Option.bind, hread, hw,
            if_true, if_pos hlock, ← hwindef, hf2, Option.some_bind,
            Bool.false_eq_true, if_false]
        refine ⟨⟨st.buffer, st.mapping, st.address, send2⟩,
          { sh2 with checksum := checksum (send2.take h.size) },
          send2.take h.size, ?_, rfl, rfl, rfl, rfl, rfl, ?_, ?_, rfl, rfl, ?_⟩
        · unfold receive_command process_command
          rw [if_neg hns]
          simp [htop, hfix, hck, Bind.bind, Option.bind, hexv, hwcase, hlock]
        · simp only [List.length_take]
          omega
        · intro _
          rfl
        · show send2.length = MAX_COMMAND
          omega
    · by_cases hw : h.access.write = true
      · obtain ⟨buf2, hfw, hlenw⟩ := foldCopy_write_some window h st.buffer d
          st.buffer.length rfl hwinsub haddr hd
        have hexv : exchange_virtual st sh2 h d = some
            ⟨⟨buf2, st.mapping, st.address, d ++ st.send.drop d.length⟩,
             sh2, true⟩ := by
          unfold exchange_virtual
          simp only [hwcase, hcopy, Bind.bind, Option.bind, hread, hw,
            if_true, if_pos hlock, ← hwindef, hfw, Option.some_bind,
            Bool.false_eq_true, if_false]
        refine ⟨⟨buf2, st.mapping, st.address, d ++ st.send.drop d.length⟩,
          sh2, (d ++ st.send.drop d.length).take h.size,
          ?_, rfl, rfl, rfl, rfl, rfl, ?_, ?_, rfl, ?_, ?_⟩
        · unfold receive_command process_command
          rw [if_neg hns]
          simp [htop, hfix, hck, Bind.bind, Option.bind, hexv, hwcase, hlock]
        · rw [htaked]
          exact hd
        · intro _
          rw [htaked, hsh2]
          exact hcks hw
        · exact hlenw
        · show (d ++ st.send.drop d.length).length = MAX_COMMAND
          omega
      · have hexv : exchange_virtual st sh2 h d = some
            ⟨⟨st.buffer, st.mapping, st.address, d ++ st.send.drop d.length⟩,
             sh2, true⟩ := by
          unfold exchange_virtual
          simp only [hwcase, hcopy, Bind.bind, Option.bind, hread, hw,
            if_pos hlock, ← hwindef, Option.some_bind,
            Bool.false_eq_true, if_false]
        refine ⟨⟨st.buffer, st.mapping, st.address, d ++ st.send.drop d.length⟩,
          sh2, (d ++ st.send.drop d.length).take h.size,
          ?_, rfl, rfl, rfl, rfl, rfl, ?_, ?_, rfl, rfl, ?_⟩
        · unfold receive_command process_command
          rw [if_neg hns]
          simp [htop, hfix, hck, Bind.bind, Option.bind, hexv, hwcase, hlock]
        · rw [htaked]
          exact hd
        · intro hw2
          exact absurd hw2 hw
        · show (d ++ st.send.drop d.length).length = MAX_COMMAND
          omega
  · -- window empty: the buffer is not locked
    have hexv : exchange_virtual st sh2 h d = some
        ⟨⟨st.buffer, st.mapping, st.address, d ++ st.send.drop d.length⟩,
         sh2, false⟩ := by
      unfold exchange_virtual
      simp only [hwcase, hcopy, Bind.bind, Option.bind, Option.some_bind]
      rw [if_neg (by omega)]
    refine ⟨⟨st.buffer, st.mapping, st.address, d ++ st.send.drop d.length⟩,
      sh2, (d ++ st.send.drop d.length).take h.size,
      ?_, rfl, rfl, rfl, rfl, rfl, ?_, ?_, rfl, rfl, ?_⟩
    · unfold receive_command process_command
      rw [if_neg hns]
      simp [htop, hfix, hck, Bind.bind, Option.bind, hexv, hwcase, hlock]
    · rw [htaked]
      exact hd
    · intro hw2
      rw [htaked, hsh2]
      exact hcks hw2
    · show (d ++ st.send.drop d.length).length = MAX_COMMAND
      omega

lemma virtWindow_congr (m : List MappingEntry) (h1 h2 : Command)
    (ha : h1.address = h2.address) (hs : h1.size = h2.size) :
    virtWindow m h1 = virtWindow m h2 := by
  unfold virtWindow
  rw [ha, hs]

/-- a well-formed virtual frame walking a chain of correctly configured
slaves: every slave executes, so the executed count accumulates by one per
slave (mod 256), and each slave locks its buffer exactly when its bisected
candidate window is nonempty. -/
lemma chain_virtual (sts : List SlaveState) (h : Command) (d : List Nat)
    (hinv : ∀ st ∈ sts, slaveInv st) (hwf : virtWF h d)
    (hmap : ∀ st ∈ sts, ∀ e ∈ st.mapping, entryOk e st.buffer.length)
    (he : h.executed < 256) :
    ∃ outs hf df, chain sts h d = some (outs, hf, df) ∧
      hf.executed = (h.executed + sts.length) % 256 ∧
      hf.access = h.access ∧ hf.address = h.address ∧
      outs.length = sts.length ∧
      outs.map (fun o => (o.locked, o.executedFlag)) =
        sts.map (fun st => (decide ((virtWindow st.mapping h).1 <
          (virtWindow st.mapping h).2), true)) := by
  induction sts generalizing h d with
  | nil =>
    refine ⟨[], h, d, by simp [chain], ?_, rfl, rfl, rfl, rfl⟩
    simp only [List.length_nil]
    omega
  | cons st rest ih =>
    obtain ⟨st', sh, d2, hstep, htok, hacc, haddr, hsize, hexec, hd2len,
        hcksum, _, _, _⟩ :=
      step_virtual st h d (hinv st (by simp)) hwf (hmap st (by simp))
    have hwf2 : virtWF sh d2 := by
      obtain ⟨a, b, c, e, f, g⟩ := hwf
      refine ⟨by rw [hacc]; exact a, by rw [hacc]; exact b,
        by rw [hsize]; exact c, by rw [hsize]; exact hd2len,
        by rw [hacc]; exact hcksum, by rw [haddr, hsize]; exact g⟩
    have hexlt : sh.executed < 256 := by
      rw [hexec]
      omega
    obtain ⟨outs, hf, df, hc, hfe, hfa, hfad, hlen, hmapped⟩ :=
      ih sh d2 (fun s hs => hinv s (by simp [hs])) hwf2
        (fun s hs => hmap s (by simp [hs])) hexlt
    refine ⟨⟨st', some (sh, d2),
      decide ((virtWindow st.mapping h).1 < (virtWindow st.mapping h).2),
      true⟩ :: outs, hf, df, ?_, ?_, ?_, ?_, ?_, ?_⟩
    · simp only [chain, hstep, Bind.bind, Option.bind, hc]
    · rw [hfe, hexec]
      simp only [List.length_cons]
      omega
    · rw [hfa, hacc]
    · rw [hfad, haddr]
    · simp [hlen]
    · simp only [List.map_cons, hmapped, List.cons.injEq]
      constructor
      · trivial
      · apply List.map_congr_left
        intro x _
        rw [virtWindow_congr x.mapping sh h haddr hsize]

lemma stV_slaveInv : ∀ st ∈ [stV], slaveInv st := by
  intro st hst
  simp only [List.mem_singleton] at hst
  subst hst
  constructor
  · show (List.replicate 4096 (0 : Nat)).length = MAX_COMMAND
    rw [List.length_replicate]
    rfl
  · show (0x500 : Nat) ≤ (List.replicate 1280 (0 : Nat)).length
    rw [List.length_replicate]

lemma stV_entryOk : ∀ st ∈ [stV], ∀ e ∈ st.mapping, entryOk e st.buffer.length := by
  intro st hst e hent
  simp only [List.mem_singleton] at hst
  subst hst
  have he : e = ⟨10, 0, 4⟩ := List.mem_singleton.mp hent
  subst he
  constructor
  · show (0 : Nat) + 4 ≤ (List.replicate 1280 (0 : Nat)).length
    rw [List.length_replicate]
    decide
  · decide

lemma virtWindow_stV : virtWindow stV.mapping hV = (0, 1) := by
  show virtWindow [⟨10, 0, 4⟩] hV = (0, 1)
  simp [virtWindow, bisect_slice, bisectLoop, hV, Address.toU32]

lemma hV_wf : virtWF hV [0, 0, 0, 0] :=
  ⟨rfl, rfl, by decide, by decide, fun hw => absurd hw (by decide), by decide⟩

lemma stV2_slaveInv : ∀ st ∈ [stV2], slaveInv st := by
  intro st hst
  simp only [List.mem_singleton] at hst
  subst hst
  constructor
  · show (List.replicate 4096 (0 : Nat)).length = MAX_COMMAND
    rw [List.length_replicate]
    rfl
  · show (0x500 : Nat) ≤ (List.replicate 1280 (0 : Nat)).length
    rw [List.length_replicate]

lemma stV2_entryOk : ∀ st ∈ [stV2], ∀ e ∈ st.mapping, entryOk e st.buffer.length := by
  intro st hst e hent
  simp only [List.mem_singleton] at hst
  subst hst
  have he : e ∈ [(⟨0, 0, 2⟩ : MappingEntry), ⟨8, 2, 2⟩] := hent
  simp only [List.mem_cons, List.mem_singleton, List.not_mem_nil, or_false]
    at he
  rcases he with he | he <;> subst he <;> constructor
  · show (0 : Nat) + 2 ≤ (List.replicate 1280 (0 : Nat)).length
    rw [List.length_replicate]
    decide
  · decide
  · show (2 : Nat) + 2 ≤ (List.replicate 1280 (0 : Nat)).length
    rw [List.length_replicate]
    decide
  · decide

lemma virtWindow_stV2 : virtWindow stV2.mapping hV2 = (1, 1) := by
  show virtWindow [⟨0, 0, 2⟩, ⟨8, 2, 2⟩] hV2 = (1, 1)
  simp [virtWindow, bisect_slice, bisectLoop, hV2, Address.toU32]

lemma hV2_wf : virtWF hV2 [0] :=
  ⟨rfl, rfl, by decide, by decide, fun hw => absurd hw (by decide), by decide⟩

/-- C3, counterexample, both directions of the mismatch between
intersection and the bisected window: (i) one slave mapped at virtual
`[10, 14)` receiving a well-formed virtual read of interval `[6, 10)` — no
mapping entry intersects the requested interval, yet the executed count
returned to the master is 1 (the claim demands 0) and the slave locks its
buffer (the entry merely touching the interval end falls inside the bisected
window); (ii) one slave mapped at `[0, 2)` and `[8, 10)` receiving a virtual
read of `[8, 9)` — the entry `[8, 10)` intersects the request, yet the
bisected window is empty (`stop` is computed relative to `mapping[start..]`
but compared against the absolute `start`), so the slave never locks and the
intersecting entry is not served. -/
theorem C3_counterexample :
    specIntersectCount [stV] hV = 0 ∧
    (chain [stV] hV [0, 0, 0, 0]).map
      (fun r => (r.2.1.executed, r.1.map fun o => o.locked)) =
      some (1, [true]) ∧
    specMappingIntersects stV2.mapping hV2 = true ∧
    (chain [stV2] hV2 [0]).map (fun r => r.1.map fun o => o.locked) =
      some [false] := by
  refine ⟨by decide, ?_, by decide, ?_⟩
  · obtain ⟨outs, hf, df, hc, hfe, hfa, hfad, hlen, hmapped⟩ :=
      chain_virtual [stV] hV [0, 0, 0, 0] stV_slaveInv hV_wf stV_entryOk
        (by decide)
    rw [hc]
    obtain ⟨o1, ho1⟩ := List.length_eq_one.mp (by rw [hlen]; rfl)
    rw [ho1] at hmapped
    simp only [List.map_cons, List.map_nil, List.cons.injEq, Prod.mk.injEq]
      at hmapped
    have hlk : o1.locked = true := by
      rw [hmapped.1.1, virtWindow_stV]
      rfl
    have hex1 : hf.executed = 1 := by
      rw [hfe]
      decide
    rw [ho1]
    simp only [Option.map_some', List.map_cons, List.map_nil, hlk, hex1]
  · obtain ⟨outs, hf, df, hc, hfe, hfa, hfad, hlen, hmapped⟩ :=
      chain_virtual [stV2] hV2 [0] stV2_slaveInv hV2_wf stV2_entryOk
        (by decide)
    rw [hc]
    obtain ⟨o1, ho1⟩ := List.length_eq_one.mp (by rw [hlen]; rfl)
    rw [ho1] at hmapped
    simp only [List.map_cons, List.map_nil, List.cons.injEq, Prod.mk.injEq]
      at hmapped
    have hlk : o1.locked = false := by
      rw [hmapped.1.1, virtWindow_stV2]
      rfl
    rw [ho1]
    simp only [Option.map_some', List.map_cons, List.map_nil, hlk]

/-- C3, amended: on a chain of `N ≤ 255` correctly configured slaves, a
well-formed virtual command is executed by **every** slave — the executed
count returned to the master equals N, the number of slaves in the chain,
regardless of mapping intersections — and a slave locks its buffer exactly
when its bisected candidate window `[start, stop)` is nonempty.  Window
nonemptiness does not coincide with intersection in either direction (see
the counterexample): an entry merely touching the end of the requested
interval yields a nonempty window without intersecting, and an intersecting
entry can fall outside the window.  A slave with an empty window, in
particular an empty mapping table, forwards the frame without locking. -/
theorem C3_virtual_chain (sts : List SlaveState) (h : Command) (d : List Nat)
    (hN : sts.length ≤ 255) (hinv : ∀ st ∈ sts, slaveInv st)
    (hwf : virtWF h d)
    (hmap : ∀ st ∈ sts, ∀ e ∈ st.mapping, entryOk e st.buffer.length)
    (hexec : h.executed = 0) :
    ∃ outs hf df, chain sts h d = some (outs, hf, df) ∧
      hf.executed = sts.length ∧
      outs.length = sts.length ∧
      outs.map (fun o => (o.locked, o.executedFlag)) =
        sts.map (fun st => (decide ((virtWindow st.mapping h).1 <
          (virtWindow st.mapping h).2), true)) := by
  obtain ⟨outs, hf, df, hc, hfe, _, _, hlen, hmapped⟩ :=
    chain_virtual sts h d hinv hwf hmap (by omega)
  refine ⟨outs, hf, df, hc, ?_, hlen, hmapped⟩
  rw [hfe, hexec]
  omega

/-- C3, witness: the single-slave instance satisfies the hypotheses and the
amended conclusion. -/
theorem C3_virtual_chain_witness :
    virtWF hV [0, 0, 0, 0] ∧
    (∃ outs hf df, chain [stV] hV [0, 0, 0, 0] = some (outs, hf, df) ∧
      hf.executed = [stV].length ∧ outs.length = [stV].length ∧
      outs.map (fun o => (o.locked, o.executedFlag)) =
        [stV].map (fun st => (decide ((virtWindow st.mapping hV).1 <
          (virtWindow st.mapping hV).2), true))) :=
  ⟨hV_wf, C3_virtual_chain [stV] hV [0, 0, 0, 0] (by decide) stV_slaveInv
    hV_wf stV_entryOk rfl⟩

end Artcat
